import Mathlib

/-!
# Verification of the Cirq circuit/connection model

A shallow embedding of `cirq/core.py`: the `Domain`/`Port`/`Connection`/`Circuit`
graph model, its connection-validity rules, adjacency bookkeeping, net resolution
(`get_nets`) and the JSON (de)serialization round trip
(`to_jsonifiable`/`from_jsonifiable`).

Two views of the code are embedded:

* an *operational* model (`CircuitState` plus the mutation operations
  `Circuit.connect`, `Connection.set_source`/`set_target`, `Connection.remove`,
  `CircuitBuilder.delete_selected_component`), in which ports and connections are
  identified by numeric ids standing for Python object identity, each port carrying
  the `connections_in`/`connections_out` adjacency lists of the source; and

* a *structural* model (`SCircuit`) mirroring exactly the data read and written by
  `Circuit.to_jsonifiable` and `Circuit.from_jsonifiable`.

Python dictionaries are embedded as association lists with last-write-wins update
(`dictOf`); dictionary equality in Python is extensional, and the proved equalities
are plain list equalities, which are stronger.
-/

namespace Cirq

/-- Port direction: the `direction` Enum trait `("in", "out", "inout")` of `Port`. -/
inductive Direction where
  | din
  | dout
  | dinout
deriving DecidableEq

/-- The `Domain` widget's data: `name`, `causal`, `one2one`.
Python compares domains by object identity (`p1.domain is not p2.domain`);
in circuits built through the public API there is one `Domain` object per name,
so we embed domains as records compared by value. -/
structure DomainSpec where
  name : String
  causal : Bool
  one2one : Bool
deriving DecidableEq

/-- The per-`Port` state: the `name`, `domain` and `direction` traits, whether the
port is external (`Port.is_ext`, i.e. its `_parent` is the `Circuit` itself — a fact
of the object graph we carry as a field), and the `connections_in`/`connections_out`
list traits holding the ids of the `Connection` objects targeting/leaving the port. -/
structure PortState where
  name : String
  domain : DomainSpec
  direction : Direction
  ext : Bool
  connections_in : List Nat
  connections_out : List Nat
deriving DecidableEq

/-- The two `Instance` traits of a `Connection`: its `source` and `target` ports
(as port ids). -/
structure ConnState where
  source : Nat
  target : Nat
deriving DecidableEq

/-- The mutable state of a `Circuit` and of the element objects reachable from it.
Ports and connections are named by `Nat` ids (object identity).  `ports` and `conns`
are total maps from ids; ids outside the circuit are simply never referenced.

* `circuit_ports` is the circuit's own `ports` list (its external ports) in order;
* `component_instances` lists instance ids in order and `inst_ports` gives each
  instance's ordered `ports` list (instances' port lists are never mutated by the
  operations modelled here);
* `connections` is the circuit's `connections` list trait;
* `live` is model bookkeeping, not a Python field: `live cid = true` iff connection
  `cid` has been created and not yet removed.  The spec forbids reusing a removed
  connection, and the reachability relation below enforces this through `live`;
* `next_conn` is model bookkeeping for allocating fresh connection ids;
* `selected` is the circuit's `selected_element` trait restricted to the case used
  by `delete_selected_component`: `some i` when the selected element is the
  component instance `i`, `none` otherwise (the method's `isinstance` guard makes
  it a no-op for every other kind of selection). -/
structure CircuitState where
  ports : Nat → PortState
  circuit_ports : List Nat
  component_instances : List Nat
  inst_ports : Nat → List Nat
  conns : Nat → ConnState
  connections : List Nat
  live : Nat → Bool
  next_conn : Nat
  selected : Option Nat

/-- Embedding of `Port.is_source`: `self.direction == "out" or (self.direction == "in" and self.is_ext)`. -/
def Port.is_source (p : PortState) : Bool :=
  p.direction = Direction.dout || (p.direction = Direction.din && p.ext)

/-- Embedding of `Port.is_target`: `self.direction == "in" or (self.direction == "out" and self.is_ext)`. -/
def Port.is_target (p : PortState) : Bool :=
  p.direction = Direction.din || (p.direction = Direction.dout && p.ext)

/-- Embedding of the membership tests `p2 in p1.connections_out`,
`p2 in p1.connections_in`, `p1 in p2.connections_in`, `p1 in p2.connections_out`
inside `Domain.valid_connection`.  In the source these test a `Port` object for
membership in a list of `Connection` objects; Python list membership compares with
`==`, which for these classes is object identity, and a `Port` is never the same
object as a `Connection`, so the test is always false.  Ports and connections live
in separate id spaces here, so the cross-type membership is the constant `false`. -/
def port_in_connection_list (_p : Nat) (_l : List Nat) : Bool :=
  false

/-- Embedding of `Domain.valid_connection(p1, p2)`: `none` for `False`, `some (source, target)`
for an accepted pair (the returned orientation). -/
def Domain.valid_connection (s : CircuitState) (p1 p2 : Nat) : Option (Nat × Nat) :=
  if p1 = p2 then none
  else if (s.ports p1).domain ≠ (s.ports p2).domain then none
  else if (s.ports p1).domain.causal then
    let p1t := Port.is_target (s.ports p1)
    let p1s := Port.is_source (s.ports p1)
    let p2t := Port.is_target (s.ports p2)
    let p2s := Port.is_source (s.ports p2)
    if p1s && p2t then
      if port_in_connection_list p2 (s.ports p1).connections_out then none
      else if (s.ports p1).domain.one2one &&
          decide (0 < (s.ports p1).connections_out.length + (s.ports p1).connections_in.length) then
        none
      else some (p1, p2)
    else if p2s && p1t then
      if port_in_connection_list p2 (s.ports p1).connections_in then none
      else if (s.ports p1).domain.one2one &&
          decide (0 < (s.ports p1).connections_in.length + (s.ports p2).connections_out.length) then
        none
      else some (p2, p1)
    else none
  else
    if port_in_connection_list p1 (s.ports p2).connections_in ||
        port_in_connection_list p1 (s.ports p2).connections_out then none
    else some (p1, p2)

/-- Update one port's state, leaving all other ports untouched. -/
def updatePort (s : CircuitState) (pid : Nat) (f : PortState → PortState) : CircuitState :=
  { s with ports := fun q => if q = pid then f (s.ports q) else s.ports q }

/-- Models `Connection(source=q1, target=q2)` followed by
`self.connections = self.connections + [new_connection]`: constructing the
connection fires `_source_changed`/`_target_changed` with no old port, appending
the fresh connection to `q1.connections_out` and `q2.connections_in`; the circuit
then appends it to its `connections` list. -/
def Connection.construct_and_append (s : CircuitState) (q1 q2 : Nat) : CircuitState :=
  let cid := s.next_conn
  let s1 := updatePort s q1 (fun p => { p with connections_out := p.connections_out ++ [cid] })
  let s2 := updatePort s1 q2 (fun p => { p with connections_in := p.connections_in ++ [cid] })
  { s2 with
    conns := fun c => if c = cid then ⟨q1, q2⟩ else s2.conns c
    live := fun c => if c = cid then true else s2.live c
    next_conn := cid + 1
    connections := s2.connections ++ [cid] }

/-- Embedding of `Circuit.connect(p1, p2, verify)`.  On validation failure (with `verify`) the
method returns without touching anything.  Otherwise it swaps the pair when the
domain is causal and `p1` is not a source, constructs
`Connection(source=p1, target=p2)` (which self-registers) and appends it to the
circuit's `connections` list. -/
def Circuit.connect (s : CircuitState) (p1 p2 : Nat) (verify : Bool) : CircuitState :=
  if verify && (Domain.valid_connection s p1 p2).isNone then s
  else
    let swap := (s.ports p1).domain.causal && !Port.is_source (s.ports p1)
    Connection.construct_and_append s (if swap then p2 else p1) (if swap then p1 else p2)

/-- Models `Connection._source_changed` fired by assigning `c.source = new`: the connection
removes itself from the old source's `connections_out` (the `filter(lambda c: c is
not self, ...)`), appends itself to the new source's `connections_out`, and the
`source` trait now holds the new port. -/
def Connection.set_source (s : CircuitState) (cid : Nat) (new : Nat) : CircuitState :=
  let old := (s.conns cid).source
  let s1 := updatePort s old (fun p => { p with connections_out := p.connections_out.filter (fun c => c ≠ cid) })
  let s2 := updatePort s1 new (fun p => { p with connections_out := p.connections_out ++ [cid] })
  { s2 with conns := fun c => if c = cid then { s2.conns c with source := new } else s2.conns c }

/-- Models `Connection._target_changed` fired by assigning `c.target = new`; symmetric to
`Connection.set_source` with the `connections_in` lists. -/
def Connection.set_target (s : CircuitState) (cid : Nat) (new : Nat) : CircuitState :=
  let old := (s.conns cid).target
  let s1 := updatePort s old (fun p => { p with connections_in := p.connections_in.filter (fun c => c ≠ cid) })
  let s2 := updatePort s1 new (fun p => { p with connections_in := p.connections_in ++ [cid] })
  { s2 with conns := fun c => if c = cid then { s2.conns c with target := new } else s2.conns c }

/-- Embedding of `Connection.remove()`: it filters the connection out of the circuit's
`connections` list, out of `source.connections_out` and out of
`target.connections_in` (each via `filter(lambda c: c is not self, ...)`).
The `live` flag is model bookkeeping marking the connection as removed. -/
def Connection.remove (s : CircuitState) (cid : Nat) : CircuitState :=
  let s1 := { s with connections := s.connections.filter (fun c => c ≠ cid) }
  let s2 := updatePort s1 (s.conns cid).source
    (fun p => { p with connections_out := p.connections_out.filter (fun c => c ≠ cid) })
  let s3 := updatePort s2 (s.conns cid).target
    (fun p => { p with connections_in := p.connections_in.filter (fun c => c ≠ cid) })
  { s3 with live := fun c => if c = cid then false else s3.live c }

/-- Embedding of `CircuitBuilder.delete_selected_component`: if the selected element is a
component instance owned by the circuit, filter it out of
`circuit.component_instances`, then for each of its ports call `cc.remove()` on
every connection in the (freshly read) `p.connections_in + p.connections_out`,
and finally clear the selection; otherwise do nothing. -/
def CircuitBuilder.delete_selected_component (s : CircuitState) : CircuitState :=
  match s.selected with
  | none => s
  | some i =>
    if i ∈ s.component_instances then
      let s1 := { s with component_instances := s.component_instances.filter (fun j => j ≠ i) }
      let s2 := (s.inst_ports i).foldl
        (fun t p =>
          ((t.ports p).connections_in ++ (t.ports p).connections_out).foldl Connection.remove t)
        s1
      { s2 with selected := none }
    else s

/-! ## Concrete example states -/

/-- A causal, non-one2one domain (like the `fieldmode` example without its
one-to-one restriction). -/
def fmDomain : DomainSpec := ⟨"fm", true, false⟩

/-- A causal one-to-one domain, like `fieldmode` in the test scenario. -/
def fm1Domain : DomainSpec := ⟨"fm", true, true⟩

/-- A non-causal domain, like `electrical` in the test scenario. -/
def elDomain : DomainSpec := ⟨"el", false, false⟩

/-- A circuit with no ports in use and no connections. -/
def emptyState : CircuitState :=
  { ports := fun _ => ⟨"p", elDomain, Direction.dinout, false, [], []⟩
    circuit_ports := []
    component_instances := []
    inst_ports := fun _ => []
    conns := fun _ => ⟨0, 0⟩
    connections := []
    live := fun _ => false
    next_conn := 0
    selected := none }

/-- Two external (circuit-level) input ports `0` and `1` of the same causal
domain, with no connections anywhere. -/
def twoExtInState : CircuitState :=
  { emptyState with
    ports := fun n =>
      if n = 0 then ⟨"a", fmDomain, Direction.din, true, [], []⟩
      else ⟨"b", fmDomain, Direction.din, true, [], []⟩
    circuit_ports := [0, 1] }

/-- Three internal ports of the causal one-to-one domain: port `0` (`"x"`, out),
port `1` (`"p1"`, out) and port `2` (`"p2"`, in); no connections yet. -/
def one2oneBase : CircuitState :=
  { emptyState with
    ports := fun n =>
      if n = 0 then ⟨"x", fm1Domain, Direction.dout, false, [], []⟩
      else if n = 1 then ⟨"p1", fm1Domain, Direction.dout, false, [], []⟩
      else ⟨"p2", fm1Domain, Direction.din, false, [], []⟩ }

/-- State `one2oneBase` after `connect(p1, p2)`: the one existing connection `p1 → p2`
of the one-to-one domain. -/
def one2oneConnected : CircuitState := Circuit.connect one2oneBase 1 2 true

/-- Two inout ports `0` and `1` of the non-causal domain, no connections. -/
def nonCausalBase : CircuitState :=
  { emptyState with
    ports := fun n =>
      if n = 0 then ⟨"u", elDomain, Direction.dinout, false, [], []⟩
      else ⟨"v", elDomain, Direction.dinout, false, [], []⟩ }

/-- State `nonCausalBase` after `connect(0, 1)` in the non-causal domain. -/
def nonCausalConnected : CircuitState := Circuit.connect nonCausalBase 0 1 true

/-- State `deleteBase`: the three one-to-one-domain ports of `one2oneBase`, with ports
`1` and `2` owned by a component instance (id `100`) that is currently the
selected element. -/
def deleteBase : CircuitState :=
  { one2oneBase with
    component_instances := [100]
    inst_ports := fun i => if i = 100 then [1, 2] else []
    selected := some 100 }

/-- State `deleteBase` after `connect(1, 2)`: the selected instance's two ports are
joined by one connection. -/
def deleteReady : CircuitState := Circuit.connect deleteBase 1 2 true

/-- Whether a connection's source or target is one of the ports in `P`. -/
def touches_ports (s : CircuitState) (P : List Nat) (cid : Nat) : Bool :=
  decide ((s.conns cid).source ∈ P) || decide ((s.conns cid).target ∈ P)

/-- Whether a connection touches any port of component instance `i`:
its source or target is one of the instance's ports. -/
def touches_instance (s : CircuitState) (i cid : Nat) : Bool :=
  touches_ports s (s.inst_ports i) cid

/-! ## Association-list embedding of Python dicts -/

/-- Python dict assignment `m[k] = v`: overwrite the value of an existing key
(keeping its position), or append a new entry. -/
def alist_upd {κ α : Type} [DecidableEq κ] (m : List (κ × α)) (k : κ) (v : α) :
    List (κ × α) :=
  if k ∈ m.map Prod.fst then m.map (fun kv => if kv.1 = k then (k, v) else kv)
  else m ++ [(k, v)]

/-- Python dict lookup `m[k]` / `m.get(k)`. -/
def alist_find {κ α : Type} [DecidableEq κ] (m : List (κ × α)) (k : κ) : Option α :=
  (m.find? (fun kv => kv.1 = k)).map Prod.snd

/-- Python `del m[k]`. -/
def alist_del {κ α : Type} [DecidableEq κ] (m : List (κ × α)) (k : κ) : List (κ × α) :=
  m.filter (fun kv => kv.1 ≠ k)

/-- A Python dict built from a sequence of key-value pairs (dict comprehension):
later pairs overwrite earlier ones with the same key.  Python dict equality is
extensional; the embedding keeps insertion order, which is immaterial to the
lookups and map-equalities proved below. -/
def dictOf {κ α : Type} [DecidableEq κ] (l : List (κ × α)) : List (κ × α) :=
  l.foldl (fun m kv => alist_upd m kv.1 kv.2) []

/-- Monadic map over `Option`: Python's `map(f, l)` / list comprehension where
evaluating `f` may raise (propagating the failure). -/
def omapM {α β : Type} (f : α → Option β) : List α → Option (List β)
  | [] => some []
  | a :: t => (f a).bind fun b => (omapM f t).map fun bs => b :: bs

/-! ## Net resolution: `Circuit.get_nets` -/

/-- Embedding of `HasPorts.ports_for_domain`: `filter(lambda p: p.domain is domain, self.ports)`
for the port-id list `pids` of one port owner. -/
def HasPorts.ports_for_domain (s : CircuitState) (pids : List Nat) (d : DomainSpec) :
    List Nat :=
  pids.filter (fun p => (s.ports p).domain = d)

/-- The `all_ports` list of `Circuit.get_nets`: the circuit's own ports for the
domain, then each component instance's matching ports, in order. -/
def Circuit.all_net_ports (s : CircuitState) (d : DomainSpec) : List Nat :=
  HasPorts.ports_for_domain s s.circuit_ports d ++
    (s.component_instances.map (fun i => HasPorts.ports_for_domain s (s.inst_ports i) d)).flatten

/-- Insert `x` into an already-sorted list, ordering by `key`. -/
def insertSortedBy (key : Nat → Nat) (x : Nat) : List Nat → List Nat
  | [] => [x]
  | y :: ys => if key x ≤ key y then x :: y :: ys else y :: insertSortedBy key x ys

/-- Python `sorted(l, key=key)` (insertion sort; stability is irrelevant here
because all keys occurring together are distinct). -/
def sortByKey (key : Nat → Nat) (l : List Nat) : List Nat :=
  l.foldr (insertSortedBy key) []

/-- Embedding of `Circuit.get_nets(domain)`.  `nets` maps each qualifying port to its current
`(net index, clique members)` pair, `nets_index` freezes the initial enumeration
index, and `nets_by_nk` maps a net index to its member set — all three Python
dicts are embedded via `dictOf`/`alist_upd`/`alist_find`/`alist_del`, and the
Python set union `pss | pts` as duplicate-free list append.  A connection whose
endpoints are not keys of `nets` would raise `KeyError` in Python; the embedding
returns `none` there.  The result lists each surviving clique sorted by the
ports' enumeration index, cliques in ascending order of their key. -/
def Circuit.get_nets (s : CircuitState) (d : DomainSpec) : Option (List (List Nat)) :=
  let all_ports := Circuit.all_net_ports s d
  let nets0 : List (Nat × Nat × List Nat) :=
    dictOf (all_ports.enum.map (fun kp => (kp.2, kp.1, [kp.2])))
  let nets_index : List (Nat × Nat) := dictOf (all_ports.enum.map (fun kp => (kp.2, kp.1)))
  (s.connections.foldlM
    (fun (st : List (Nat × Nat × List Nat) × List (Nat × List Nat)) cid =>
      if (s.ports (s.conns cid).source).domain ≠ d ∨
          (s.ports (s.conns cid).target).domain ≠ d then some st
      else
        match alist_find st.1 (s.conns cid).source, alist_find st.1 (s.conns cid).target with
        | some (ns, pss), some (nt, pts) =>
          let mn := min ns nt
          let ma := max ns nt
          let clique := pss ++ pts.filter (fun p => p ∉ pss)
          let nets1 := clique.foldl (fun m pp => alist_upd m pp (mn, clique)) st.1
          let nbk1 := alist_upd st.2 mn clique
          let nbk2 := if ns ≠ nt ∧ (alist_find nbk1 ma).isSome then alist_del nbk1 ma else nbk1
          some (nets1, nbk2)
        | _, _ => none)
    (nets0, ([] : List (Nat × List Nat)))).bind fun st =>
    omapM (fun kk =>
      (alist_find st.2 kk).map
        (fun clique => sortByKey (fun p => (alist_find nets_index p).getD 0) clique))
      (sortByKey id (st.2.map Prod.fst))

/-- A circuit with a single external port of the non-causal domain and no
connections: one qualifying, isolated port. -/
def c1State : CircuitState :=
  { emptyState with
    ports := fun _ => ⟨"e", elDomain, Direction.dinout, true, [], []⟩
    circuit_ports := [0] }

/-! ## Reachable states and the adjacency invariant -/

/-- A freshly constructed circuit: no connections anywhere.  (Ports, instances
and selection are arbitrary: circuits are built with any initial ports and
instances, whose adjacency lists start empty.) -/
def CircuitState.initial (s : CircuitState) : Prop :=
  s.connections = [] ∧ s.next_conn = 0 ∧ (∀ cid, s.live cid = false) ∧
    ∀ pid, (s.ports pid).connections_in = [] ∧ (s.ports pid).connections_out = []

/-- One public mutation of the circuit, as listed by the spec: `Circuit.connect`,
assignment to a live connection's `source` or `target` trait, `Connection.remove`
on a live connection (a removed connection "must not be reused"), deleting the
selected component instance, and changing the selection. -/
inductive Step : CircuitState → CircuitState → Prop where
  | connect (s : CircuitState) (p1 p2 : Nat) (verify : Bool) :
      Step s (Circuit.connect s p1 p2 verify)
  | set_source (s : CircuitState) (cid new : Nat) (h : s.live cid = true) :
      Step s (Connection.set_source s cid new)
  | set_target (s : CircuitState) (cid new : Nat) (h : s.live cid = true) :
      Step s (Connection.set_target s cid new)
  | remove (s : CircuitState) (cid : Nat) (h : s.live cid = true) :
      Step s (Connection.remove s cid)
  | delete_component (s : CircuitState) :
      Step s (CircuitBuilder.delete_selected_component s)
  | select (s : CircuitState) (x : Option Nat) :
      Step s { s with selected := x }

/-- States reachable from a freshly constructed circuit through the public
operations. -/
inductive Reachable : CircuitState → Prop where
  | init (s : CircuitState) (h : s.initial) : Reachable s
  | step (s t : CircuitState) (hr : Reachable s) (hs : Step s t) : Reachable t

/-- The adjacency bookkeeping invariant: every live connection is registered
exactly once in its current source's `connections_out`, exactly once in its
current target's `connections_in`, in no other port's adjacency lists, and
exactly once in the circuit's `connections` list; a removed or never-created
connection appears nowhere; ids at or above `next_conn` are unallocated. -/
structure Inv (s : CircuitState) : Prop where
  src_count : ∀ cid, s.live cid = true →
    (s.ports (s.conns cid).source).connections_out.count cid = 1
  tgt_count : ∀ cid, s.live cid = true →
    (s.ports (s.conns cid).target).connections_in.count cid = 1
  out_other : ∀ cid pid, s.live cid = true → pid ≠ (s.conns cid).source →
    (s.ports pid).connections_out.count cid = 0
  in_other : ∀ cid pid, s.live cid = true → pid ≠ (s.conns cid).target →
    (s.ports pid).connections_in.count cid = 0
  dead_out : ∀ cid pid, s.live cid = false → (s.ports pid).connections_out.count cid = 0
  dead_in : ∀ cid pid, s.live cid = false → (s.ports pid).connections_in.count cid = 0
  circ_live : ∀ cid, s.live cid = true → s.connections.count cid = 1
  circ_dead : ∀ cid, s.live cid = false → s.connections.count cid = 0
  fresh : ∀ cid, s.next_conn ≤ cid → s.live cid = false

/-- The property claimed for every reachable state: each live connection appears
exactly once in its current source port's `connections_out`, exactly once in its
current target port's `connections_in`, and in no other port's adjacency lists. -/
def adjacency_exact (s : CircuitState) : Prop :=
  ∀ cid, s.live cid = true →
    (s.ports (s.conns cid).source).connections_out.count cid = 1 ∧
    (s.ports (s.conns cid).target).connections_in.count cid = 1 ∧
    (∀ pid, pid ≠ (s.conns cid).source → (s.ports pid).connections_out.count cid = 0) ∧
    (∀ pid, pid ≠ (s.conns cid).target → (s.ports pid).connections_in.count cid = 0)

/-! ## Structural model for serialization (`to_jsonifiable` / `from_jsonifiable`)

`to_jsonifiable` reads only structure: port names/domains/directions, instance
names and types, and for each connection the owner name and port name of its two
endpoints.  `SCircuit` carries exactly that data; adjacency lists and selection
state play no role in serialization. -/

/-- A port as serialization sees it: `name`, shared `domain` object, `direction`. -/
structure SPort where
  name : String
  domain : DomainSpec
  direction : Direction
deriving DecidableEq

/-- A `ComponentType`: a named port template. -/
structure SCType where
  name : String
  ports : List SPort
deriving DecidableEq

/-- A `ComponentInstance`: name, its `ctype`, and its own cloned ports. -/
structure SInstance where
  name : String
  ctype : SCType
  ports : List SPort
deriving DecidableEq

/-- A `Connection` as serialization sees it: for each endpoint, the owning
element's name (`port._parent.name`) and the port itself. -/
structure SConn where
  source_owner : String
  source : SPort
  target_owner : String
  target : SPort
deriving DecidableEq

/-- A `Circuit` as serialization sees it: name, external ports, component
instances, connections. -/
structure SCircuit where
  name : String
  ports : List SPort
  component_instances : List SInstance
  connections : List SConn
deriving DecidableEq

/-- The `_port_info` record: `{"name": ..., "domain": domain name, "direction": ...}`. -/
structure PortSpec where
  name : String
  domain : String
  direction : Direction
deriving DecidableEq

/-- The output of `to_jsonifiable` / input of `from_jsonifiable`: nested dicts and
lists.  The four Python dicts (`domains`, `component_types`,
`component_instances`, and the top level) are embedded as association lists built
with `dictOf`. -/
structure Jsonifiable where
  name : String
  domains : List (String × Bool × Bool)
  ports : List PortSpec
  component_types : List (String × List PortSpec)
  component_instances : List (String × String)
  connections : List (String × String × String × String)
deriving DecidableEq

/-- The `_port_info(p)` record. -/
def port_info (p : SPort) : PortSpec :=
  ⟨p.name, p.domain.name, p.direction⟩

/-- The domain objects gathered by `to_jsonifiable`:
`{p.domain for p in self.ports}` unioned with each instance's port domains.
Python collects a set of `Domain` objects and then keys a dict by name; we keep
the full multiset and let `dictOf`'s later-wins update model the keying (which
same-named object survives the Python set iteration is unspecified; under the
name-coherence hypothesis used below they are all equal). -/
def SCircuit.collected_domains (c : SCircuit) : List DomainSpec :=
  c.ports.map SPort.domain ++
    (c.component_instances.map (fun i => i.ports.map SPort.domain)).flatten

/-- Embedding of `Circuit.to_jsonifiable()`. -/
def SCircuit.to_jsonifiable (c : SCircuit) : Jsonifiable :=
  { name := c.name
    domains := dictOf (c.collected_domains.map (fun dm => (dm.name, dm.causal, dm.one2one)))
    ports := c.ports.map port_info
    component_types := dictOf (c.component_instances.map (fun i =>
      (i.ctype.name, i.ctype.ports.map port_info)))
    component_instances := dictOf (c.component_instances.map (fun i => (i.name, i.ctype.name)))
    connections := c.connections.map (fun co =>
      (co.source_owner, co.source.name, co.target_owner, co.target.name)) }

/-- The direction coercion performed by the `Port` trait observers
(`_domain_changed`/`_direction_changed`) when a port is constructed with a given
domain and direction: a non-causal domain forces `inout`, a causal domain turns
`inout` into `in`.  On direction-consistent data this is the identity. -/
def normalize_direction (p : SPort) : SPort :=
  if p.domain.causal then
    (if p.direction = Direction.dinout then { p with direction := Direction.din } else p)
  else { p with direction := Direction.dinout }

/-- Embedding of `_make_port(port_info)` inside `from_jsonifiable`: look the domain up by name
(`KeyError` becomes `none`) and construct the `Port`. -/
def make_port (domains : List (String × Bool × Bool)) (pi : PortSpec) : Option SPort :=
  (alist_find domains pi.domain).map fun cz =>
    normalize_direction ⟨pi.name, ⟨pi.domain, cz.1, cz.2⟩, pi.direction⟩

/-- Models `clone_ports`: fresh `Port` objects with the same name, domain and direction;
ports are immutable records here, so the clones equal the originals. -/
def clone_ports (ps : List SPort) : List SPort := ps

/-- Resolving one `(owner_name, port_name)` pair of a connection tuple: the
circuit's own name resolves through `ports_dict`, any other name through the
named instance's port map; a missing name is a `KeyError` (`none`).  The
returned pair also records the resolved port's `_parent.name` as it will be
re-serialized. -/
def resolve_port (cname : String) (ports : List SPort) (insts : List SInstance)
    (cn pn : String) : Option (String × SPort) :=
  if cn = cname then
    (alist_find (ports.map (fun p => (p.name, p))) pn).map (fun p => (cname, p))
  else
    (alist_find (insts.map (fun i => (i.name, i))) cn).bind fun i =>
      (alist_find (i.ports.map (fun p => (p.name, p))) pn).map (fun p => (i.name, p))

/-- Embedding of `Circuit.from_jsonifiable(obj)`.  Faithful to the source's failure modes:
a falsy name raises; a missing domain/type/instance/port name during
reconstruction raises a `KeyError`; duplicate port names within a
`ComponentType` or the circuit, or duplicate instance names, raise `ValueError`
in the `HasPorts`/`Circuit` trait observers.  All of these are `none` here;
otherwise the circuit is rebuilt: ports, then component types, then instances
via `make_instance` (cloning the type's ports), then connections resolved by
owner name and port name. -/
def SCircuit.from_jsonifiable (obj : Jsonifiable) : Option SCircuit :=
  if obj.name = "" then none
  else
    (omapM (make_port obj.domains) obj.ports).bind fun ports =>
    (omapM (fun (kv : String × List PortSpec) =>
        (omapM (make_port obj.domains) kv.2).bind fun tps =>
        if (tps.map SPort.name).Nodup then some (⟨kv.1, tps⟩ : SCType) else none)
      obj.component_types).bind fun ctypes =>
    (omapM (fun (kv : String × String) =>
        (alist_find (ctypes.map (fun ct => (ct.name, ct))) kv.2).map fun ct =>
          (⟨kv.1, ct, clone_ports ct.ports⟩ : SInstance)) obj.component_instances).bind
      fun insts =>
    if (ports.map SPort.name).Nodup ∧ (insts.map SInstance.name).Nodup then
      (omapM (fun (t : String × String × String × String) =>
          (resolve_port obj.name ports insts t.1 t.2.1).bind fun sp =>
          (resolve_port obj.name ports insts t.2.2.1 t.2.2.2).map fun tp =>
          (⟨sp.1, sp.2, tp.1, tp.2⟩ : SConn)) obj.connections).map fun conns =>
        (⟨obj.name, ports, insts, conns⟩ : SCircuit)
    else none

/-- Direction consistency enforced by the `Port` observers: causal domains have
`in`/`out` ports, non-causal domains have `inout` ports. -/
def dir_ok (p : SPort) : Prop :=
  if p.domain.causal then p.direction = Direction.din ∨ p.direction = Direction.dout
  else p.direction = Direction.dinout

instance (p : SPort) : Decidable (dir_ok p) := by
  unfold dir_ok
  infer_instance

/-- A concrete circuit for the round-trip witness: one causal and one non-causal
domain, two external ports, one component type with one instance, and two
connections (circuit-to-instance and instance-to-circuit). -/
def mzCircuit : SCircuit :=
  let fm : DomainSpec := ⟨"fm", true, true⟩
  let el : DomainSpec := ⟨"el", false, false⟩
  let pIn : SPort := ⟨"In1", fm, Direction.din⟩
  let pCtl : SPort := ⟨"Control", el, Direction.dinout⟩
  let phIn : SPort := ⟨"In1", fm, Direction.din⟩
  let phCtl : SPort := ⟨"Control", el, Direction.dinout⟩
  let phase : SCType := ⟨"Phase", [phIn, phCtl]⟩
  { name := "MZ"
    ports := [pIn, pCtl]
    component_instances := [⟨"phi", phase, [phIn, phCtl]⟩]
    connections := [⟨"MZ", pIn, "phi", phIn⟩, ⟨"MZ", pCtl, "phi", phCtl⟩] }

/-! ## C3: causal source/target role matching in `Domain.valid_connection` -/

/-- C3 (counterexample): ports `0` and `1` of `twoExtInState` are distinct external
`in` ports of the same causal domain.  By the claim's role table an external `in`
port is a source (and the code's `Port.is_source` agrees), so *both* ports qualify
as sources and the claim demands rejection — but `Domain.valid_connection` accepts
the pair, returning `(0, 1)`, because `is_source`/`is_target` overlap on external
ports: `0` passes `is_source` and `1` passes `is_target`. -/
theorem c3_both_sources_accepted :
    Domain.valid_connection twoExtInState 0 1 = some (0, 1) ∧
    Port.is_source (twoExtInState.ports 0) = true ∧
    Port.is_source (twoExtInState.ports 1) = true ∧
    (twoExtInState.ports 0).domain = (twoExtInState.ports 1).domain ∧
    (twoExtInState.ports 0).domain.causal = true ∧
    (twoExtInState.ports 0).direction = Direction.din ∧
    (twoExtInState.ports 0).ext = true ∧
    (twoExtInState.ports 1).direction = Direction.din ∧
    (twoExtInState.ports 1).ext = true := by
  decide

/-- C3 (amended): for two ports of the same causal domain, `Domain.valid_connection`
accepts only a pair in which one port passes `is_source` and the other passes
`is_target` in the orientation returned — where `is_source` is `direction = out, or
direction = in on an external port` and `is_target` is `direction = in, or
direction = out on an external port`, so an external port qualifies as both —
returning `(p1, p2)` when `p1` is a source and `p2` a target, and `(p2, p1)` in
the opposite matching; it rejects whenever neither orientation pairs a source with
a target (in particular whenever neither port is a source). -/
theorem c3_causal_roles (s : CircuitState) (p1 p2 : Nat)
    (hc : (s.ports p1).domain.causal = true) :
    (∀ q1 q2, Domain.valid_connection s p1 p2 = some (q1, q2) →
      (q1 = p1 ∧ q2 = p2 ∧
        Port.is_source (s.ports p1) = true ∧ Port.is_target (s.ports p2) = true) ∨
      (q1 = p2 ∧ q2 = p1 ∧
        Port.is_source (s.ports p2) = true ∧ Port.is_target (s.ports p1) = true)) ∧
    (¬ (Port.is_source (s.ports p1) = true ∧ Port.is_target (s.ports p2) = true) →
     ¬ (Port.is_source (s.ports p2) = true ∧ Port.is_target (s.ports p1) = true) →
      Domain.valid_connection s p1 p2 = none) := by
  unfold Domain.valid_connection
  by_cases hpp : p1 = p2 <;>
    by_cases hd : (s.ports p1).domain = (s.ports p2).domain <;>
      cases h1s : Port.is_source (s.ports p1) <;>
        cases h1t : Port.is_target (s.ports p1) <;>
          cases h2s : Port.is_source (s.ports p2) <;>
            cases h2t : Port.is_target (s.ports p2) <;>
              simp_all [port_in_connection_list]

/-- Witness for `c3_causal_roles` at the concrete state `twoExtInState`. -/
theorem c3_causal_roles_witness :
    (∀ q1 q2, Domain.valid_connection twoExtInState 0 1 = some (q1, q2) →
      (q1 = 0 ∧ q2 = 1 ∧
        Port.is_source (twoExtInState.ports 0) = true ∧
        Port.is_target (twoExtInState.ports 1) = true) ∨
      (q1 = 1 ∧ q2 = 0 ∧
        Port.is_source (twoExtInState.ports 1) = true ∧
        Port.is_target (twoExtInState.ports 0) = true)) ∧
    (¬ (Port.is_source (twoExtInState.ports 0) = true ∧
        Port.is_target (twoExtInState.ports 1) = true) →
     ¬ (Port.is_source (twoExtInState.ports 1) = true ∧
        Port.is_target (twoExtInState.ports 0) = true) →
      Domain.valid_connection twoExtInState 0 1 = none) :=
  c3_causal_roles twoExtInState 0 1 (by decide)

/-! ## C4: one-to-one causal domains (`one2one`) -/

/-- C4 (code bug, evaluated at the failing input): in the one-to-one causal state
`one2oneConnected` the connection `p1 → p2` (ports `1 → 2`, connection id `0`)
exists, so `p2`'s `connections_in` is non-empty; yet `valid_connection(x, p2)`
(ports `0`, `2`) *accepts*, because in the `p1s and p2t` branch the one-to-one
check inspects only the candidate source's adjacency — and a verified
`connect(x, p2)` then gives the target `p2` two incoming connections in a
one-to-one domain. -/
theorem c4_one2one_target_not_checked :
    (one2oneConnected.ports 2).connections_in = [0] ∧
    (one2oneConnected.ports 2).domain.one2one = true ∧
    one2oneConnected.conns 0 = ⟨1, 2⟩ ∧
    Domain.valid_connection one2oneConnected 0 2 = some (0, 2) ∧
    ((Circuit.connect one2oneConnected 0 2 true).ports 2).connections_in = [0, 1] ∧
    (Circuit.connect one2oneConnected 0 2 true).connections = [0, 1] := by
  decide

/-! ## C5: duplicate detection in non-causal domains -/

/-- C5 (code bug, evaluated at the failing input): in `nonCausalConnected` the
ports `0` and `1` of the non-causal domain are already connected (`0 → 1`,
connection id `0`), yet `valid_connection(1, 0)` on the reversed pair *accepts*
and returns `(1, 0)`: the duplicate test `p1 in p2.connections_in or p1 in
p2.connections_out` compares a `Port` against `Connection` objects and never
fires. -/
theorem c5_reversed_duplicate_accepted :
    (nonCausalConnected.ports 0).connections_out = [0] ∧
    (nonCausalConnected.ports 1).connections_in = [0] ∧
    nonCausalConnected.conns 0 = ⟨0, 1⟩ ∧
    nonCausalConnected.connections = [0] ∧
    (nonCausalConnected.ports 0).domain.causal = false ∧
    Domain.valid_connection nonCausalConnected 1 0 = some (1, 0) := by
  decide

/-! ## C8: verified `connect` is a silent no-op on rejection -/

/-- C8: if `Domain.valid_connection(p1, p2)` rejects, `Circuit.connect(p1, p2)`
with verification returns the state completely unchanged: no connection is
created and every `connections`/`connections_in`/`connections_out` list is
exactly as before. -/
theorem c8_connect_noop_on_rejection (s : CircuitState) (p1 p2 : Nat)
    (h : Domain.valid_connection s p1 p2 = none) :
    Circuit.connect s p1 p2 true = s := by
  simp [Circuit.connect, h]

/-- Witness for `c8_connect_noop_on_rejection`: connecting a port to itself is
rejected, and the connect call leaves the state untouched. -/
theorem c8_connect_noop_witness :
    Domain.valid_connection emptyState 0 0 = none ∧
    Circuit.connect emptyState 0 0 true = emptyState :=
  ⟨by decide, c8_connect_noop_on_rejection emptyState 0 0 (by decide)⟩

/-! ## C10: orientation of the stored connection in unverified `connect` -/

/-- C10: `Circuit.connect(p1, p2, verify=False)` still orients the stored
connection: for a causal domain the new `Connection` is `(source=p1, target=p2)`
when `p1` passes `is_source` and `(source=p2, target=p1)` otherwise; for a
non-causal domain it is `(source=p1, target=p2)` in the order given.  In every
case the new connection is appended to the circuit's `connections` list. -/
theorem c10_unverified_connect_orientation (s : CircuitState) (p1 p2 : Nat)
    (_hdom : (s.ports p1).domain = (s.ports p2).domain) :
    ((s.ports p1).domain.causal = true →
      (Port.is_source (s.ports p1) = true →
        (Circuit.connect s p1 p2 false).conns s.next_conn = ⟨p1, p2⟩) ∧
      (Port.is_source (s.ports p1) = false →
        (Circuit.connect s p1 p2 false).conns s.next_conn = ⟨p2, p1⟩)) ∧
    ((s.ports p1).domain.causal = false →
      (Circuit.connect s p1 p2 false).conns s.next_conn = ⟨p1, p2⟩) ∧
    (Circuit.connect s p1 p2 false).connections = s.connections ++ [s.next_conn] := by
  cases hc : (s.ports p1).domain.causal <;>
    cases hs : Port.is_source (s.ports p1) <;>
      simp [Circuit.connect, Connection.construct_and_append, updatePort, hc, hs]

/-- Witness for `c10_unverified_connect_orientation` at `one2oneBase`
(ports `1`, `2` share the causal domain and `1` is a source). -/
theorem c10_orientation_witness :
    (one2oneBase.ports 1).domain = (one2oneBase.ports 2).domain ∧
    ((one2oneBase.ports 1).domain.causal = true →
      (Port.is_source (one2oneBase.ports 1) = true →
        (Circuit.connect one2oneBase 1 2 false).conns one2oneBase.next_conn = ⟨1, 2⟩) ∧
      (Port.is_source (one2oneBase.ports 1) = false →
        (Circuit.connect one2oneBase 1 2 false).conns one2oneBase.next_conn = ⟨2, 1⟩)) ∧
    ((one2oneBase.ports 1).domain.causal = false →
      (Circuit.connect one2oneBase 1 2 false).conns one2oneBase.next_conn = ⟨1, 2⟩) ∧
    (Circuit.connect one2oneBase 1 2 false).connections =
      one2oneBase.connections ++ [one2oneBase.next_conn] :=
  ⟨by decide, c10_unverified_connect_orientation one2oneBase 1 2 (by decide)⟩

/-! ## List-count helper lemmas -/

theorem count_append_self (l : List Nat) (c : Nat) : (l ++ [c]).count c = l.count c + 1 := by
  simp [List.count_append]

theorem count_append_ne (l : List Nat) (c x : Nat) (h : x ≠ c) :
    (l ++ [c]).count x = l.count x := by
  simp [List.count_append, List.count_singleton', h]

theorem count_filter_self (l : List Nat) (c : Nat) :
    (l.filter (fun y => y ≠ c)).count c = 0 := by
  simp [List.count_eq_zero, List.mem_filter]

theorem count_filter_ne (l : List Nat) (c x : Nat) (h : x ≠ c) :
    (l.filter (fun y => y ≠ c)).count x = l.count x :=
  List.count_filter (by simp [h])

theorem filter_of_count_zero (l : List Nat) (c : Nat) (h : l.count c = 0) :
    l.filter (fun y => y ≠ c) = l := by
  rw [List.count_eq_zero] at h
  exact List.filter_eq_self.mpr (fun a ha => by simp; rintro rfl; exact h ha)

theorem mem_of_count_one (l : List Nat) (c : Nat) (h : l.count c = 1) : c ∈ l :=
  List.count_pos_iff.mp (by omega)

/-! ## Projection lemmas for the operations -/

theorem construct_out (s : CircuitState) (q1 q2 pid : Nat) :
    ((Connection.construct_and_append s q1 q2).ports pid).connections_out =
      if pid = q1 then (s.ports pid).connections_out ++ [s.next_conn]
      else (s.ports pid).connections_out := by
  simp only [Connection.construct_and_append, updatePort]
  split_ifs <;> rfl

theorem construct_in (s : CircuitState) (q1 q2 pid : Nat) :
    ((Connection.construct_and_append s q1 q2).ports pid).connections_in =
      if pid = q2 then (s.ports pid).connections_in ++ [s.next_conn]
      else (s.ports pid).connections_in := by
  simp only [Connection.construct_and_append, updatePort]
  split_ifs <;> rfl

theorem construct_conns (s : CircuitState) (q1 q2 c : Nat) :
    (Connection.construct_and_append s q1 q2).conns c =
      if c = s.next_conn then ⟨q1, q2⟩ else s.conns c := rfl

theorem construct_live (s : CircuitState) (q1 q2 c : Nat) :
    (Connection.construct_and_append s q1 q2).live c =
      if c = s.next_conn then true else s.live c := rfl

theorem construct_connections (s : CircuitState) (q1 q2 : Nat) :
    (Connection.construct_and_append s q1 q2).connections =
      s.connections ++ [s.next_conn] := rfl

theorem construct_next (s : CircuitState) (q1 q2 : Nat) :
    (Connection.construct_and_append s q1 q2).next_conn = s.next_conn + 1 := rfl

theorem set_source_out (s : CircuitState) (cid new pid : Nat) :
    ((Connection.set_source s cid new).ports pid).connections_out =
      (if pid = (s.conns cid).source then
        (s.ports pid).connections_out.filter (fun c => c ≠ cid)
       else (s.ports pid).connections_out) ++ (if pid = new then [cid] else []) := by
  simp only [Connection.set_source, updatePort]
  split_ifs <;> simp

theorem set_source_in (s : CircuitState) (cid new pid : Nat) :
    ((Connection.set_source s cid new).ports pid).connections_in =
      (s.ports pid).connections_in := by
  simp only [Connection.set_source, updatePort]
  split_ifs <;> rfl

theorem set_source_conns (s : CircuitState) (cid new c : Nat) :
    (Connection.set_source s cid new).conns c =
      if c = cid then ⟨new, (s.conns cid).target⟩ else s.conns c := by
  simp only [Connection.set_source, updatePort]
  split_ifs with h <;> simp [h]

theorem set_source_live (s : CircuitState) (cid new : Nat) :
    (Connection.set_source s cid new).live = s.live := rfl

theorem set_source_connections (s : CircuitState) (cid new : Nat) :
    (Connection.set_source s cid new).connections = s.connections := rfl

theorem set_source_next (s : CircuitState) (cid new : Nat) :
    (Connection.set_source s cid new).next_conn = s.next_conn := rfl

theorem set_target_in (s : CircuitState) (cid new pid : Nat) :
    ((Connection.set_target s cid new).ports pid).connections_in =
      (if pid = (s.conns cid).target then
        (s.ports pid).connections_in.filter (fun c => c ≠ cid)
       else (s.ports pid).connections_in) ++ (if pid = new then [cid] else []) := by
  simp only [Connection.set_target, updatePort]
  split_ifs <;> simp

theorem set_target_out (s : CircuitState) (cid new pid : Nat) :
    ((Connection.set_target s cid new).ports pid).connections_out =
      (s.ports pid).connections_out := by
  simp only [Connection.set_target, updatePort]
  split_ifs <;> rfl

theorem set_target_conns (s : CircuitState) (cid new c : Nat) :
    (Connection.set_target s cid new).conns c =
      if c = cid then ⟨(s.conns cid).source, new⟩ else s.conns c := by
  simp only [Connection.set_target, updatePort]
  split_ifs with h <;> simp [h]

theorem set_target_live (s : CircuitState) (cid new : Nat) :
    (Connection.set_target s cid new).live = s.live := rfl

theorem set_target_connections (s : CircuitState) (cid new : Nat) :
    (Connection.set_target s cid new).connections = s.connections := rfl

theorem set_target_next (s : CircuitState) (cid new : Nat) :
    (Connection.set_target s cid new).next_conn = s.next_conn := rfl

theorem remove_out (s : CircuitState) (cid pid : Nat) :
    ((Connection.remove s cid).ports pid).connections_out =
      if pid = (s.conns cid).source then
        (s.ports pid).connections_out.filter (fun c => c ≠ cid)
      else (s.ports pid).connections_out := by
  simp only [Connection.remove, updatePort]
  split_ifs <;> rfl

theorem remove_in (s : CircuitState) (cid pid : Nat) :
    ((Connection.remove s cid).ports pid).connections_in =
      if pid = (s.conns cid).target then
        (s.ports pid).connections_in.filter (fun c => c ≠ cid)
      else (s.ports pid).connections_in := by
  simp only [Connection.remove, updatePort]
  split_ifs <;> rfl

theorem remove_connections (s : CircuitState) (cid : Nat) :
    (Connection.remove s cid).connections = s.connections.filter (fun c => c ≠ cid) := rfl

theorem remove_conns (s : CircuitState) (cid : Nat) :
    (Connection.remove s cid).conns = s.conns := rfl

theorem remove_live (s : CircuitState) (cid c : Nat) :
    (Connection.remove s cid).live c = if c = cid then false else s.live c := rfl

theorem remove_next (s : CircuitState) (cid : Nat) :
    (Connection.remove s cid).next_conn = s.next_conn := rfl

/-! ## Preservation of the adjacency invariant -/

theorem inv_construct (s : CircuitState) (q1 q2 : Nat) (h : Inv s) :
    Inv (Connection.construct_and_append s q1 q2) := by
  have hdead : s.live s.next_conn = false := h.fresh _ le_rfl
  constructor
  · -- src_count
    intro cid hlive
    rw [construct_live] at hlive
    rw [construct_conns, construct_out]
    by_cases hc : cid = s.next_conn
    · subst hc
      simp only [if_pos rfl]
      simp [count_append_self, h.dead_out _ q1 hdead]
    · simp only [if_neg hc] at hlive ⊢
      by_cases hq : (s.conns cid).source = q1
      · rw [hq, if_pos rfl, count_append_ne _ _ _ hc, ← hq]
        exact h.src_count cid hlive
      · rw [if_neg hq]
        exact h.src_count cid hlive
  · -- tgt_count
    intro cid hlive
    rw [construct_live] at hlive
    rw [construct_conns, construct_in]
    by_cases hc : cid = s.next_conn
    · subst hc
      simp only [if_pos rfl]
      simp [count_append_self, h.dead_in _ q2 hdead]
    · simp only [if_neg hc] at hlive ⊢
      by_cases hq : (s.conns cid).target = q2
      · rw [hq, if_pos rfl, count_append_ne _ _ _ hc, ← hq]
        exact h.tgt_count cid hlive
      · rw [if_neg hq]
        exact h.tgt_count cid hlive
  · -- out_other
    intro cid pid hlive hne
    rw [construct_live] at hlive
    rw [construct_conns] at hne
    rw [construct_out]
    by_cases hc : cid = s.next_conn
    · subst hc
      simp at hne
      rw [if_neg hne]
      exact h.dead_out _ pid hdead
    · simp only [if_neg hc] at hlive hne
      by_cases hq : pid = q1
      · rw [if_pos hq, count_append_ne _ _ _ hc]
        exact h.out_other cid pid hlive hne
      · rw [if_neg hq]
        exact h.out_other cid pid hlive hne
  · -- in_other
    intro cid pid hlive hne
    rw [construct_live] at hlive
    rw [construct_conns] at hne
    rw [construct_in]
    by_cases hc : cid = s.next_conn
    · subst hc
      simp at hne
      rw [if_neg hne]
      exact h.dead_in _ pid hdead
    · simp only [if_neg hc] at hlive hne
      by_cases hq : pid = q2
      · rw [if_pos hq, count_append_ne _ _ _ hc]
        exact h.in_other cid pid hlive hne
      · rw [if_neg hq]
        exact h.in_other cid pid hlive hne
  · -- dead_out
    intro cid pid hlive
    rw [construct_live] at hlive
    by_cases hc : cid = s.next_conn
    · simp [hc] at hlive
    · simp only [if_neg hc] at hlive
      rw [construct_out]
      by_cases hq : pid = q1
      · rw [if_pos hq, count_append_ne _ _ _ hc]
        exact h.dead_out cid pid hlive
      · rw [if_neg hq]
        exact h.dead_out cid pid hlive
  · -- dead_in
    intro cid pid hlive
    rw [construct_live] at hlive
    by_cases hc : cid = s.next_conn
    · simp [hc] at hlive
    · simp only [if_neg hc] at hlive
      rw [construct_in]
      by_cases hq : pid = q2
      · rw [if_pos hq, count_append_ne _ _ _ hc]
        exact h.dead_in cid pid hlive
      · rw [if_neg hq]
        exact h.dead_in cid pid hlive
  · -- circ_live
    intro cid hlive
    rw [construct_live] at hlive
    rw [construct_connections]
    by_cases hc : cid = s.next_conn
    · subst hc
      simp [count_append_self, h.circ_dead _ hdead]
    · simp only [if_neg hc] at hlive
      rw [count_append_ne _ _ _ hc]
      exact h.circ_live cid hlive
  · -- circ_dead
    intro cid hlive
    rw [construct_live] at hlive
    rw [construct_connections]
    by_cases hc : cid = s.next_conn
    · simp [hc] at hlive
    · simp only [if_neg hc] at hlive
      rw [count_append_ne _ _ _ hc]
      exact h.circ_dead cid hlive
  · -- fresh
    intro cid hge
    rw [construct_next] at hge
    rw [construct_live]
    have hc : cid ≠ s.next_conn := by omega
    rw [if_neg hc]
    exact h.fresh cid (by omega)

theorem inv_connect (s : CircuitState) (p1 p2 : Nat) (v : Bool) (h : Inv s) :
    Inv (Circuit.connect s p1 p2 v) := by
  unfold Circuit.connect
  by_cases hg : (v && (Domain.valid_connection s p1 p2).isNone) = true
  · rw [if_pos hg]; exact h
  · rw [if_neg hg]; exact inv_construct _ _ _ h

theorem inv_set_source (s : CircuitState) (cid new : Nat) (hl : s.live cid = true)
    (h : Inv s) : Inv (Connection.set_source s cid new) := by
  constructor
  · -- src_count
    intro c hc
    rw [set_source_live] at hc
    rw [set_source_conns, set_source_out]
    by_cases hcc : c = cid
    · subst hcc
      rw [if_pos rfl]
      dsimp only
      rw [if_pos rfl, List.count_append]
      by_cases hno : new = (s.conns c).source
      · rw [if_pos hno, count_filter_self]
        simp
      · rw [if_neg hno, h.out_other c new hc hno]
        simp
    · rw [if_neg hcc, List.count_append]
      have h1 : List.count c (if (s.conns c).source = new then [cid] else []) = 0 := by
        split_ifs <;> simp [List.count_singleton', hcc]
      rw [h1]
      by_cases ho : (s.conns c).source = (s.conns cid).source
      · rw [if_pos ho, count_filter_ne _ _ _ hcc, h.src_count c hc]
      · rw [if_neg ho, h.src_count c hc]
  · -- tgt_count
    intro c hc
    rw [set_source_live] at hc
    rw [set_source_conns, set_source_in]
    by_cases hcc : c = cid
    · subst hcc
      rw [if_pos rfl]
      exact h.tgt_count c hc
    · rw [if_neg hcc]
      exact h.tgt_count c hc
  · -- out_other
    intro c pid hc hne
    rw [set_source_live] at hc
    rw [set_source_conns] at hne
    rw [set_source_out, List.count_append]
    by_cases hcc : c = cid
    · subst hcc
      rw [if_pos rfl] at hne
      dsimp only at hne
      have h1 : List.count c (if pid = new then [c] else []) = 0 := by
        rw [if_neg hne]
        simp
      rw [h1]
      by_cases ho : pid = (s.conns c).source
      · rw [if_pos ho, count_filter_self]
      · rw [if_neg ho, h.out_other c pid hc ho]
    · rw [if_neg hcc] at hne
      have h1 : List.count c (if pid = new then [cid] else []) = 0 := by
        split_ifs <;> simp [List.count_singleton', hcc]
      rw [h1]
      by_cases ho : pid = (s.conns cid).source
      · rw [if_pos ho, count_filter_ne _ _ _ hcc, h.out_other c pid hc hne]
      · rw [if_neg ho, h.out_other c pid hc hne]
  · -- in_other
    intro c pid hc hne
    rw [set_source_live] at hc
    rw [set_source_conns] at hne
    rw [set_source_in]
    by_cases hcc : c = cid
    · subst hcc
      rw [if_pos rfl] at hne
      exact h.in_other c pid hc hne
    · rw [if_neg hcc] at hne
      exact h.in_other c pid hc hne
  · -- dead_out
    intro c pid hc
    rw [set_source_live] at hc
    have hcc : c ≠ cid := fun he => by rw [he, hl] at hc; exact Bool.noConfusion hc
    rw [set_source_out, List.count_append]
    have h1 : List.count c (if pid = new then [cid] else []) = 0 := by
      split_ifs <;> simp [List.count_singleton', hcc]
    rw [h1]
    by_cases ho : pid = (s.conns cid).source
    · rw [if_pos ho, count_filter_ne _ _ _ hcc, h.dead_out c pid hc]
    · rw [if_neg ho, h.dead_out c pid hc]
  · -- dead_in
    intro c pid hc
    rw [set_source_live] at hc
    rw [set_source_in]
    exact h.dead_in c pid hc
  · -- circ_live
    intro c hc
    rw [set_source_live] at hc
    rw [set_source_connections]
    exact h.circ_live c hc
  · -- circ_dead
    intro c hc
    rw [set_source_live] at hc
    rw [set_source_connections]
    exact h.circ_dead c hc
  · -- fresh
    intro c hge
    rw [set_source_next] at hge
    rw [set_source_live]
    exact h.fresh c hge

theorem inv_set_target (s : CircuitState) (cid new : Nat) (hl : s.live cid = true)
    (h : Inv s) : Inv (Connection.set_target s cid new) := by
  constructor
  · -- src_count
    intro c hc
    rw [set_target_live] at hc
    rw [set_target_conns, set_target_out]
    by_cases hcc : c = cid
    · subst hcc
      rw [if_pos rfl]
      exact h.src_count c hc
    · rw [if_neg hcc]
      exact h.src_count c hc
  · -- tgt_count
    intro c hc
    rw [set_target_live] at hc
    rw [set_target_conns, set_target_in]
    by_cases hcc : c = cid
    · subst hcc
      rw [if_pos rfl]
      dsimp only
      rw [if_pos rfl, List.count_append]
      by_cases hno : new = (s.conns c).target
      · rw [if_pos hno, count_filter_self]
        simp
      · rw [if_neg hno, h.in_other c new hc hno]
        simp
    · rw [if_neg hcc, List.count_append]
      have h1 : List.count c (if (s.conns c).target = new then [cid] else []) = 0 := by
        split_ifs <;> simp [List.count_singleton', hcc]
      rw [h1]
      by_cases ho : (s.conns c).target = (s.conns cid).target
      · rw [if_pos ho, count_filter_ne _ _ _ hcc, h.tgt_count c hc]
      · rw [if_neg ho, h.tgt_count c hc]
  · -- out_other
    intro c pid hc hne
    rw [set_target_live] at hc
    rw [set_target_conns] at hne
    rw [set_target_out]
    by_cases hcc : c = cid
    · subst hcc
      rw [if_pos rfl] at hne
      exact h.out_other c pid hc hne
    · rw [if_neg hcc] at hne
      exact h.out_other c pid hc hne
  · -- in_other
    intro c pid hc hne
    rw [set_target_live] at hc
    rw [set_target_conns] at hne
    rw [set_target_in, List.count_append]
    by_cases hcc : c = cid
    · subst hcc
      rw [if_pos rfl] at hne
      dsimp only at hne
      have h1 : List.count c (if pid = new then [c] else []) = 0 := by
        rw [if_neg hne]
        simp
      rw [h1]
      by_cases ho : pid = (s.conns c).target
      · rw [if_pos ho, count_filter_self]
      · rw [if_neg ho, h.in_other c pid hc ho]
    · rw [if_neg hcc] at hne
      have h1 : List.count c (if pid = new then [cid] else []) = 0 := by
        split_ifs <;> simp [List.count_singleton', hcc]
      rw [h1]
      by_cases ho : pid = (s.conns cid).target
      · rw [if_pos ho, count_filter_ne _ _ _ hcc, h.in_other c pid hc hne]
      · rw [if_neg ho, h.in_other c pid hc hne]
  · -- dead_out
    intro c pid hc
    rw [set_target_live] at hc
    rw [set_target_out]
    exact h.dead_out c pid hc
  · -- dead_in
    intro c pid hc
    rw [set_target_live] at hc
    have hcc : c ≠ cid := fun he => by rw [he, hl] at hc; exact Bool.noConfusion hc
    rw [set_target_in, List.count_append]
    have h1 : List.count c (if pid = new then [cid] else []) = 0 := by
      split_ifs <;> simp [List.count_singleton', hcc]
    rw [h1]
    by_cases ho : pid = (s.conns cid).target
    · rw [if_pos ho, count_filter_ne _ _ _ hcc, h.dead_in c pid hc]
    · rw [if_neg ho, h.dead_in c pid hc]
  · -- circ_live
    intro c hc
    rw [set_target_live] at hc
    rw [set_target_connections]
    exact h.circ_live c hc
  · -- circ_dead
    intro c hc
    rw [set_target_live] at hc
    rw [set_target_connections]
    exact h.circ_dead c hc
  · -- fresh
    intro c hge
    rw [set_target_next] at hge
    rw [set_target_live]
    exact h.fresh c hge

theorem inv_remove (s : CircuitState) (cid : Nat) (h : Inv s) :
    Inv (Connection.remove s cid) := by
  constructor
  · -- src_count
    intro c hc
    rw [remove_live] at hc
    have hcc : c ≠ cid := fun he => by rw [he, if_pos rfl] at hc; exact Bool.noConfusion hc
    rw [if_neg hcc] at hc
    rw [remove_conns, remove_out]
    by_cases ho : (s.conns c).source = (s.conns cid).source
    · rw [ho, if_pos rfl, count_filter_ne _ _ _ hcc, ← ho]
      exact h.src_count c hc
    · rw [if_neg ho]
      exact h.src_count c hc
  · -- tgt_count
    intro c hc
    rw [remove_live] at hc
    have hcc : c ≠ cid := fun he => by rw [he, if_pos rfl] at hc; exact Bool.noConfusion hc
    rw [if_neg hcc] at hc
    rw [remove_conns, remove_in]
    by_cases ho : (s.conns c).target = (s.conns cid).target
    · rw [ho, if_pos rfl, count_filter_ne _ _ _ hcc, ← ho]
      exact h.tgt_count c hc
    · rw [if_neg ho]
      exact h.tgt_count c hc
  · -- out_other
    intro c pid hc hne
    rw [remove_live] at hc
    have hcc : c ≠ cid := fun he => by rw [he, if_pos rfl] at hc; exact Bool.noConfusion hc
    rw [if_neg hcc] at hc
    rw [remove_conns] at hne
    rw [remove_out]
    by_cases ho : pid = (s.conns cid).source
    · rw [if_pos ho, count_filter_ne _ _ _ hcc, h.out_other c pid hc hne]
    · rw [if_neg ho, h.out_other c pid hc hne]
  · -- in_other
    intro c pid hc hne
    rw [remove_live] at hc
    have hcc : c ≠ cid := fun he => by rw [he, if_pos rfl] at hc; exact Bool.noConfusion hc
    rw [if_neg hcc] at hc
    rw [remove_conns] at hne
    rw [remove_in]
    by_cases ho : pid = (s.conns cid).target
    · rw [if_pos ho, count_filter_ne _ _ _ hcc, h.in_other c pid hc hne]
    · rw [if_neg ho, h.in_other c pid hc hne]
  · -- dead_out
    intro c pid hc
    rw [remove_live] at hc
    rw [remove_out]
    by_cases hcc : c = cid
    · subst hcc
      by_cases ho : pid = (s.conns c).source
      · rw [if_pos ho, count_filter_self]
      · rw [if_neg ho]
        by_cases hlv : s.live c
        · exact h.out_other c pid hlv ho
        · exact h.dead_out c pid (by simpa using hlv)
    · rw [if_neg hcc] at hc
      by_cases ho : pid = (s.conns cid).source
      · rw [if_pos ho, count_filter_ne _ _ _ hcc]
        exact h.dead_out c pid hc
      · rw [if_neg ho]
        exact h.dead_out c pid hc
  · -- dead_in
    intro c pid hc
    rw [remove_live] at hc
    rw [remove_in]
    by_cases hcc : c = cid
    · subst hcc
      by_cases ho : pid = (s.conns c).target
      · rw [if_pos ho, count_filter_self]
      · rw [if_neg ho]
        by_cases hlv : s.live c
        · exact h.in_other c pid hlv ho
        · exact h.dead_in c pid (by simpa using hlv)
    · rw [if_neg hcc] at hc
      by_cases ho : pid = (s.conns cid).target
      · rw [if_pos ho, count_filter_ne _ _ _ hcc]
        exact h.dead_in c pid hc
      · rw [if_neg ho]
        exact h.dead_in c pid hc
  · -- circ_live
    intro c hc
    rw [remove_live] at hc
    have hcc : c ≠ cid := fun he => by rw [he, if_pos rfl] at hc; exact Bool.noConfusion hc
    rw [if_neg hcc] at hc
    rw [remove_connections, count_filter_ne _ _ _ hcc]
    exact h.circ_live c hc
  · -- circ_dead
    intro c hc
    rw [remove_live] at hc
    rw [remove_connections]
    by_cases hcc : c = cid
    · subst hcc
      exact count_filter_self _ _
    · rw [if_neg hcc] at hc
      rw [count_filter_ne _ _ _ hcc]
      exact h.circ_dead c hc
  · -- fresh
    intro c hge
    rw [remove_next] at hge
    rw [remove_live]
    by_cases hcc : c = cid
    · rw [if_pos hcc]
    · rw [if_neg hcc]
      exact h.fresh c hge

theorem inv_set_selected (s : CircuitState) (x : Option Nat) (h : Inv s) :
    Inv { s with selected := x } :=
  ⟨h.src_count, h.tgt_count, h.out_other, h.in_other, h.dead_out, h.dead_in,
    h.circ_live, h.circ_dead, h.fresh⟩

theorem inv_set_instances (s : CircuitState) (l : List Nat) (h : Inv s) :
    Inv { s with component_instances := l } :=
  ⟨h.src_count, h.tgt_count, h.out_other, h.in_other, h.dead_out, h.dead_in,
    h.circ_live, h.circ_dead, h.fresh⟩

theorem inv_foldl_remove (L : List Nat) (s : CircuitState) (h : Inv s) :
    Inv (L.foldl Connection.remove s) := by
  induction L generalizing s with
  | nil => exact h
  | cons a t ih => exact ih _ (inv_remove s a h)

theorem inv_foldl_ports (P : List Nat) (s : CircuitState) (h : Inv s) :
    Inv (P.foldl
      (fun t p => ((t.ports p).connections_in ++ (t.ports p).connections_out).foldl
        Connection.remove t) s) := by
  induction P generalizing s with
  | nil => exact h
  | cons a t ih => exact ih _ (inv_foldl_remove _ _ h)

theorem inv_delete (s : CircuitState) (h : Inv s) :
    Inv (CircuitBuilder.delete_selected_component s) := by
  unfold CircuitBuilder.delete_selected_component
  split
  · exact h
  · split_ifs with hmem
    · exact inv_set_selected _ _ (inv_foldl_ports _ _ (inv_set_instances _ _ h))
    · exact h

theorem inv_step (s t : CircuitState) (hs : Step s t) (h : Inv s) : Inv t := by
  cases hs with
  | connect p1 p2 v => exact inv_connect s p1 p2 v h
  | set_source cid new hl => exact inv_set_source s cid new hl h
  | set_target cid new hl => exact inv_set_target s cid new hl h
  | remove cid hl => exact inv_remove s cid h
  | delete_component => exact inv_delete s h
  | select x => exact inv_set_selected s x h

theorem inv_initial (s : CircuitState) (h : s.initial) : Inv s := by
  obtain ⟨hconn, hnext, hlive, hports⟩ := h
  constructor
  · intro cid hc
    rw [hlive cid] at hc
    exact Bool.noConfusion hc
  · intro cid hc
    rw [hlive cid] at hc
    exact Bool.noConfusion hc
  · intro cid pid hc
    rw [hlive cid] at hc
    exact fun _ => Bool.noConfusion hc
  · intro cid pid hc
    rw [hlive cid] at hc
    exact fun _ => Bool.noConfusion hc
  · intro cid pid _
    rw [(hports pid).2]
    rfl
  · intro cid pid _
    rw [(hports pid).1]
    rfl
  · intro cid hc
    rw [hlive cid] at hc
    exact Bool.noConfusion hc
  · intro cid _
    rw [hconn]
    rfl
  · intro cid _
    exact hlive cid

theorem reachable_inv (s : CircuitState) (h : Reachable s) : Inv s := by
  induction h with
  | init s hi => exact inv_initial s hi
  | step s t _ hs ih => exact inv_step s t hs ih

/-! ## C6: live connections are exactly registered -/

/-- C6: in every circuit state reachable through the public operations
(`Circuit.connect`, `Connection` source/target assignment, `Connection.remove`,
component deletion, selection changes), every live connection appears exactly once
in its current source port's `connections_out`, exactly once in its current target
port's `connections_in`, and in no other port's adjacency lists — never orphaned,
never duplicated. -/
theorem c6_live_connection_registration (s : CircuitState) (h : Reachable s) :
    adjacency_exact s := by
  have hi := reachable_inv s h
  intro cid hlive
  exact ⟨hi.src_count cid hlive, hi.tgt_count cid hlive,
    fun pid hne => hi.out_other cid pid hlive hne,
    fun pid hne => hi.in_other cid pid hlive hne⟩

theorem one2oneBase_initial : one2oneBase.initial := by
  refine ⟨rfl, rfl, fun _ => rfl, fun pid => ?_⟩
  unfold one2oneBase emptyState
  dsimp only
  split_ifs <;> exact ⟨rfl, rfl⟩

theorem reachable_one2oneConnected : Reachable one2oneConnected :=
  Reachable.step _ _ (Reachable.init _ one2oneBase_initial) (Step.connect _ 1 2 true)

/-- Witness for `c6_live_connection_registration` at the concrete reachable state
`one2oneConnected`. -/
theorem c6_live_connection_witness : adjacency_exact one2oneConnected :=
  c6_live_connection_registration one2oneConnected reachable_one2oneConnected

/-! ## C7: `Connection.remove` removes from exactly three collections -/

/-- C7: for a live (registered) connection `cid` of a reachable circuit state,
`Connection.remove` filters `cid` out of exactly the circuit's `connections` list,
the source's `connections_out` and the target's `connections_in`; every other
port's adjacency lists are literally untouched, every other connection's
multiplicity is everywhere unchanged, and afterwards `cid` appears in no
collection at all. -/
theorem c7_remove_exact_three (s : CircuitState) (cid : Nat)
    (hr : Reachable s) (_hl : s.live cid = true) :
    (Connection.remove s cid).connections = s.connections.filter (fun c => c ≠ cid) ∧
    ((Connection.remove s cid).ports (s.conns cid).source).connections_out =
      (s.ports (s.conns cid).source).connections_out.filter (fun c => c ≠ cid) ∧
    ((Connection.remove s cid).ports (s.conns cid).target).connections_in =
      (s.ports (s.conns cid).target).connections_in.filter (fun c => c ≠ cid) ∧
    (∀ pid, pid ≠ (s.conns cid).source →
      ((Connection.remove s cid).ports pid).connections_out = (s.ports pid).connections_out) ∧
    (∀ pid, pid ≠ (s.conns cid).target →
      ((Connection.remove s cid).ports pid).connections_in = (s.ports pid).connections_in) ∧
    (∀ c, c ≠ cid →
      (Connection.remove s cid).connections.count c = s.connections.count c) ∧
    (∀ pid c, c ≠ cid →
      ((Connection.remove s cid).ports pid).connections_out.count c =
        (s.ports pid).connections_out.count c ∧
      ((Connection.remove s cid).ports pid).connections_in.count c =
        (s.ports pid).connections_in.count c) ∧
    (Connection.remove s cid).connections.count cid = 0 ∧
    (∀ pid, ((Connection.remove s cid).ports pid).connections_out.count cid = 0 ∧
      ((Connection.remove s cid).ports pid).connections_in.count cid = 0) := by
  have hi := reachable_inv s hr
  have hi' := inv_remove s cid hi
  have hdead : (Connection.remove s cid).live cid = false := by
    rw [remove_live, if_pos rfl]
  refine ⟨rfl, ?_, ?_, ?_, ?_, ?_, ?_, ?_, ?_⟩
  · rw [remove_out, if_pos rfl]
  · rw [remove_in, if_pos rfl]
  · intro pid hne
    rw [remove_out, if_neg hne]
  · intro pid hne
    rw [remove_in, if_neg hne]
  · intro c hc
    rw [remove_connections, count_filter_ne _ _ _ hc]
  · intro pid c hc
    constructor
    · rw [remove_out]
      by_cases ho : pid = (s.conns cid).source
      · rw [if_pos ho, count_filter_ne _ _ _ hc]
      · rw [if_neg ho]
    · rw [remove_in]
      by_cases ho : pid = (s.conns cid).target
      · rw [if_pos ho, count_filter_ne _ _ _ hc]
      · rw [if_neg ho]
  · rw [remove_connections]
    exact count_filter_self _ _
  · intro pid
    exact ⟨hi'.dead_out cid pid hdead, hi'.dead_in cid pid hdead⟩

/-- Witness for `c7_remove_exact_three` at the concrete reachable state
`one2oneConnected` with its single live connection `0`. -/
theorem c7_remove_witness :
    (Connection.remove one2oneConnected 0).connections =
      one2oneConnected.connections.filter (fun c => c ≠ 0) ∧
    ((Connection.remove one2oneConnected 0).ports
        (one2oneConnected.conns 0).source).connections_out =
      (one2oneConnected.ports (one2oneConnected.conns 0).source).connections_out.filter
        (fun c => c ≠ 0) ∧
    ((Connection.remove one2oneConnected 0).ports
        (one2oneConnected.conns 0).target).connections_in =
      (one2oneConnected.ports (one2oneConnected.conns 0).target).connections_in.filter
        (fun c => c ≠ 0) ∧
    (∀ pid, pid ≠ (one2oneConnected.conns 0).source →
      ((Connection.remove one2oneConnected 0).ports pid).connections_out =
        (one2oneConnected.ports pid).connections_out) ∧
    (∀ pid, pid ≠ (one2oneConnected.conns 0).target →
      ((Connection.remove one2oneConnected 0).ports pid).connections_in =
        (one2oneConnected.ports pid).connections_in) ∧
    (∀ c, c ≠ 0 →
      (Connection.remove one2oneConnected 0).connections.count c =
        one2oneConnected.connections.count c) ∧
    (∀ pid c, c ≠ 0 →
      ((Connection.remove one2oneConnected 0).ports pid).connections_out.count c =
        (one2oneConnected.ports pid).connections_out.count c ∧
      ((Connection.remove one2oneConnected 0).ports pid).connections_in.count c =
        (one2oneConnected.ports pid).connections_in.count c) ∧
    (Connection.remove one2oneConnected 0).connections.count 0 = 0 ∧
    (∀ pid, ((Connection.remove one2oneConnected 0).ports pid).connections_out.count 0 = 0 ∧
      ((Connection.remove one2oneConnected 0).ports pid).connections_in.count 0 = 0) :=
  c7_remove_exact_three one2oneConnected 0 reachable_one2oneConnected (by decide)

/-! ## Characterization of connection-removal folds (for component deletion) -/

theorem remove_circuit_ports (s : CircuitState) (cid : Nat) :
    (Connection.remove s cid).circuit_ports = s.circuit_ports := rfl

theorem remove_component_instances (s : CircuitState) (cid : Nat) :
    (Connection.remove s cid).component_instances = s.component_instances := rfl

theorem remove_inst_ports (s : CircuitState) (cid : Nat) :
    (Connection.remove s cid).inst_ports = s.inst_ports := rfl

theorem remove_selected (s : CircuitState) (cid : Nat) :
    (Connection.remove s cid).selected = s.selected := rfl

theorem mem_out_iff (s : CircuitState) (h : Inv s) (pid c : Nat) :
    c ∈ (s.ports pid).connections_out ↔ (s.live c = true ∧ (s.conns c).source = pid) := by
  constructor
  · intro hm
    by_cases hl : s.live c
    · refine ⟨hl, ?_⟩
      by_contra hne
      have h0 := h.out_other c pid hl (fun he => hne he.symm)
      rw [List.count_eq_zero] at h0
      exact h0 hm
    · have h0 := h.dead_out c pid (by simpa using hl)
      rw [List.count_eq_zero] at h0
      exact absurd hm h0
  · rintro ⟨hl, hsrc⟩
    have h1 := h.src_count c hl
    rw [hsrc] at h1
    exact mem_of_count_one _ _ h1

theorem mem_in_iff (s : CircuitState) (h : Inv s) (pid c : Nat) :
    c ∈ (s.ports pid).connections_in ↔ (s.live c = true ∧ (s.conns c).target = pid) := by
  constructor
  · intro hm
    by_cases hl : s.live c
    · refine ⟨hl, ?_⟩
      by_contra hne
      have h0 := h.in_other c pid hl (fun he => hne he.symm)
      rw [List.count_eq_zero] at h0
      exact h0 hm
    · have h0 := h.dead_in c pid (by simpa using hl)
      rw [List.count_eq_zero] at h0
      exact absurd hm h0
  · rintro ⟨hl, htgt⟩
    have h1 := h.tgt_count c hl
    rw [htgt] at h1
    exact mem_of_count_one _ _ h1

theorem mem_connections_iff (s : CircuitState) (h : Inv s) (c : Nat) :
    c ∈ s.connections ↔ s.live c = true := by
  constructor
  · intro hm
    by_cases hl : s.live c
    · exact hl
    · have h0 := h.circ_dead c (by simpa using hl)
      rw [List.count_eq_zero] at h0
      exact absurd hm h0
  · intro hl
    exact mem_of_count_one _ _ (h.circ_live c hl)

theorem foldl_remove_conns (L : List Nat) (s : CircuitState) :
    (L.foldl Connection.remove s).conns = s.conns := by
  induction L generalizing s with
  | nil => rfl
  | cons a t ih => rw [List.foldl_cons, ih, remove_conns]

theorem foldl_remove_static (L : List Nat) (s : CircuitState) :
    (L.foldl Connection.remove s).next_conn = s.next_conn ∧
    (L.foldl Connection.remove s).circuit_ports = s.circuit_ports ∧
    (L.foldl Connection.remove s).component_instances = s.component_instances ∧
    (L.foldl Connection.remove s).inst_ports = s.inst_ports ∧
    (L.foldl Connection.remove s).selected = s.selected := by
  induction L generalizing s with
  | nil => exact ⟨rfl, rfl, rfl, rfl, rfl⟩
  | cons a t ih =>
    rw [List.foldl_cons]
    exact ih (Connection.remove s a)

theorem foldl_remove_live (L : List Nat) (s : CircuitState) (c : Nat) :
    (L.foldl Connection.remove s).live c = (s.live c && !decide (c ∈ L)) := by
  induction L generalizing s with
  | nil => simp
  | cons a t ih =>
    rw [List.foldl_cons, ih, remove_live]
    by_cases hca : c = a
    · subst hca
      simp
    · simp [hca]

theorem foldl_remove_connections (L : List Nat) (s : CircuitState) :
    (L.foldl Connection.remove s).connections =
      s.connections.filter (fun c => !decide (c ∈ L)) := by
  induction L generalizing s with
  | nil => simp
  | cons a t ih =>
    rw [List.foldl_cons, ih, remove_connections, List.filter_filter]
    refine List.filter_congr (fun x _ => ?_)
    by_cases hxa : x = a
    · subst hxa
      simp
    · simp [hxa]

theorem foldl_remove_out (L : List Nat) (s : CircuitState) (h : Inv s) (pid : Nat) :
    ((L.foldl Connection.remove s).ports pid).connections_out =
      (s.ports pid).connections_out.filter (fun c => !decide (c ∈ L)) := by
  induction L generalizing s with
  | nil => simp
  | cons a t ih =>
    rw [List.foldl_cons, ih _ (inv_remove s a h), remove_out]
    by_cases hp : pid = (s.conns a).source
    · rw [if_pos hp, List.filter_filter]
      refine List.filter_congr (fun x _ => ?_)
      by_cases hxa : x = a
      · subst hxa
        simp
      · simp [hxa]
    · rw [if_neg hp]
      refine List.filter_congr (fun x hx => ?_)
      have hxa : x ≠ a := by
        intro he
        subst he
        have := (mem_out_iff s h pid x).mp hx
        exact hp this.2.symm
      simp [hxa]

theorem foldl_remove_in (L : List Nat) (s : CircuitState) (h : Inv s) (pid : Nat) :
    ((L.foldl Connection.remove s).ports pid).connections_in =
      (s.ports pid).connections_in.filter (fun c => !decide (c ∈ L)) := by
  induction L generalizing s with
  | nil => simp
  | cons a t ih =>
    rw [List.foldl_cons, ih _ (inv_remove s a h), remove_in]
    by_cases hp : pid = (s.conns a).target
    · rw [if_pos hp, List.filter_filter]
      refine List.filter_congr (fun x _ => ?_)
      by_cases hxa : x = a
      · subst hxa
        simp
      · simp [hxa]
    · rw [if_neg hp]
      refine List.filter_congr (fun x hx => ?_)
      have hxa : x ≠ a := by
        intro he
        subst he
        have := (mem_in_iff s h pid x).mp hx
        exact hp this.2.symm
      simp [hxa]

theorem touches_ports_congr (s t : CircuitState) (P : List Nat) (c : Nat)
    (h : t.conns = s.conns) : touches_ports t P c = touches_ports s P c := by
  simp [touches_ports, h]

theorem step_pointwise (s : CircuitState) (h : Inv s) (p : Nat) (P' : List Nat)
    (c : Nat) (hl : s.live c = true) :
    (!decide (c ∈ (s.ports p).connections_in ++ (s.ports p).connections_out) &&
      !touches_ports s P' c) = !touches_ports s (p :: P') c := by
  have hmL : c ∈ (s.ports p).connections_in ++ (s.ports p).connections_out ↔
      ((s.conns c).target = p ∨ (s.conns c).source = p) := by
    simp [List.mem_append, mem_in_iff s h, mem_out_iff s h, hl]
  by_cases h1 : (s.conns c).source = p <;> by_cases h2 : (s.conns c).target = p <;>
    by_cases h3 : (s.conns c).source ∈ P' <;> by_cases h4 : (s.conns c).target ∈ P' <;>
      simp [touches_ports, hmL, h1, h2, h3, h4, List.mem_cons]

theorem foldl_ports_conns (P : List Nat) (s : CircuitState) :
    (P.foldl
      (fun t p => ((t.ports p).connections_in ++ (t.ports p).connections_out).foldl
        Connection.remove t) s).conns = s.conns := by
  induction P generalizing s with
  | nil => rfl
  | cons a t ih =>
    rw [List.foldl_cons, ih, foldl_remove_conns]

theorem foldl_ports_static (P : List Nat) (s : CircuitState) :
    (P.foldl
      (fun t p => ((t.ports p).connections_in ++ (t.ports p).connections_out).foldl
        Connection.remove t) s).next_conn = s.next_conn ∧
    (P.foldl
      (fun t p => ((t.ports p).connections_in ++ (t.ports p).connections_out).foldl
        Connection.remove t) s).circuit_ports = s.circuit_ports ∧
    (P.foldl
      (fun t p => ((t.ports p).connections_in ++ (t.ports p).connections_out).foldl
        Connection.remove t) s).component_instances = s.component_instances ∧
    (P.foldl
      (fun t p => ((t.ports p).connections_in ++ (t.ports p).connections_out).foldl
        Connection.remove t) s).inst_ports = s.inst_ports ∧
    (P.foldl
      (fun t p => ((t.ports p).connections_in ++ (t.ports p).connections_out).foldl
        Connection.remove t) s).selected = s.selected := by
  induction P generalizing s with
  | nil => exact ⟨rfl, rfl, rfl, rfl, rfl⟩
  | cons a t ih =>
    rw [List.foldl_cons]
    obtain ⟨h1, h2, h3, h4, h5⟩ := ih (((s.ports a).connections_in ++
      (s.ports a).connections_out).foldl Connection.remove s)
    obtain ⟨g1, g2, g3, g4, g5⟩ := foldl_remove_static
      ((s.ports a).connections_in ++ (s.ports a).connections_out) s
    exact ⟨h1.trans g1, h2.trans g2, h3.trans g3, h4.trans g4, h5.trans g5⟩

theorem foldl_ports_live (P : List Nat) (s : CircuitState) (h : Inv s) (c : Nat) :
    (P.foldl
      (fun t p => ((t.ports p).connections_in ++ (t.ports p).connections_out).foldl
        Connection.remove t) s).live c = (s.live c && !touches_ports s P c) := by
  induction P generalizing s with
  | nil => simp [touches_ports]
  | cons a t ih =>
    rw [List.foldl_cons]
    have hinv' := inv_foldl_remove
      ((s.ports a).connections_in ++ (s.ports a).connections_out) s h
    rw [ih _ hinv']
    rw [touches_ports_congr s _ t c (foldl_remove_conns _ s)]
    rw [foldl_remove_live]
    by_cases hl : s.live c
    · rw [hl, Bool.true_and, Bool.true_and]
      exact step_pointwise s h a t c hl
    · simp [Bool.eq_false_iff.mpr hl]

theorem touches_ports_foldl_remove (L : List Nat) (s : CircuitState) (P : List Nat) (c : Nat) :
    touches_ports (L.foldl Connection.remove s) P c = touches_ports s P c := by
  simp [touches_ports, foldl_remove_conns]

theorem foldl_ports_connections (P : List Nat) (s : CircuitState) (h : Inv s) :
    (P.foldl
      (fun t p => ((t.ports p).connections_in ++ (t.ports p).connections_out).foldl
        Connection.remove t) s).connections =
      s.connections.filter (fun c => !touches_ports s P c) := by
  induction P generalizing s with
  | nil => simp [touches_ports]
  | cons a t ih =>
    rw [List.foldl_cons]
    have hinv' := inv_foldl_remove
      ((s.ports a).connections_in ++ (s.ports a).connections_out) s h
    rw [ih _ hinv']
    simp only [touches_ports_foldl_remove]
    rw [foldl_remove_connections, List.filter_filter]
    refine List.filter_congr (fun x hx => ?_)
    have hl := (mem_connections_iff s h x).mp hx
    rw [Bool.and_comm]
    exact step_pointwise s h a t x hl

theorem foldl_ports_out (P : List Nat) (s : CircuitState) (h : Inv s) (pid : Nat) :
    ((P.foldl
      (fun t p => ((t.ports p).connections_in ++ (t.ports p).connections_out).foldl
        Connection.remove t) s).ports pid).connections_out =
      (s.ports pid).connections_out.filter (fun c => !touches_ports s P c) := by
  induction P generalizing s with
  | nil => simp [touches_ports]
  | cons a t ih =>
    rw [List.foldl_cons]
    have hinv' := inv_foldl_remove
      ((s.ports a).connections_in ++ (s.ports a).connections_out) s h
    rw [ih _ hinv']
    simp only [touches_ports_foldl_remove]
    rw [foldl_remove_out _ _ h pid, List.filter_filter]
    refine List.filter_congr (fun x hx => ?_)
    have hmem := (mem_out_iff s h pid x).mp hx
    rw [Bool.and_comm]
    exact step_pointwise s h a t x hmem.1

theorem foldl_ports_in (P : List Nat) (s : CircuitState) (h : Inv s) (pid : Nat) :
    ((P.foldl
      (fun t p => ((t.ports p).connections_in ++ (t.ports p).connections_out).foldl
        Connection.remove t) s).ports pid).connections_in =
      (s.ports pid).connections_in.filter (fun c => !touches_ports s P c) := by
  induction P generalizing s with
  | nil => simp [touches_ports]
  | cons a t ih =>
    rw [List.foldl_cons]
    have hinv' := inv_foldl_remove
      ((s.ports a).connections_in ++ (s.ports a).connections_out) s h
    rw [ih _ hinv']
    simp only [touches_ports_foldl_remove]
    rw [foldl_remove_in _ _ h pid, List.filter_filter]
    refine List.filter_congr (fun x hx => ?_)
    have hmem := (mem_in_iff s h pid x).mp hx
    rw [Bool.and_comm]
    exact step_pointwise s h a t x hmem.1

theorem remove_set_instances (s : CircuitState) (x : List Nat) (y : Option Nat) (cid : Nat) :
    Connection.remove { s with component_instances := x, selected := y } cid =
      { Connection.remove s cid with component_instances := x, selected := y } := rfl

theorem foldl_remove_set_instances (L : List Nat) (s : CircuitState) (x : List Nat)
    (y : Option Nat) :
    L.foldl Connection.remove { s with component_instances := x, selected := y } =
      { L.foldl Connection.remove s with component_instances := x, selected := y } := by
  induction L generalizing s with
  | nil => rfl
  | cons a t ih =>
    rw [List.foldl_cons, List.foldl_cons, remove_set_instances, ih]

theorem foldl_ports_set_instances (P : List Nat) (s : CircuitState) (x : List Nat)
    (y : Option Nat) :
    P.foldl
      (fun t p => ((t.ports p).connections_in ++ (t.ports p).connections_out).foldl
        Connection.remove t) { s with component_instances := x, selected := y } =
      { P.foldl
          (fun t p => ((t.ports p).connections_in ++ (t.ports p).connections_out).foldl
            Connection.remove t) s with component_instances := x, selected := y } := by
  induction P generalizing s with
  | nil => rfl
  | cons a t ih =>
    rw [List.foldl_cons, List.foldl_cons]
    show t.foldl _
      (((({ s with component_instances := x, selected := y } : CircuitState).ports a).connections_in ++
        (({ s with component_instances := x, selected := y } : CircuitState).ports a).connections_out).foldl
          Connection.remove { s with component_instances := x, selected := y }) = _
    rw [show (({ s with component_instances := x, selected := y } : CircuitState).ports a) =
        s.ports a from rfl,
      foldl_remove_set_instances, ih]

theorem length_filter_partition (l : List Nat) (p : Nat → Bool) :
    (l.filter (fun a => !p a)).length = l.length - (l.filter p).length := by
  have h2 : (l.filter p).length + (l.filter (fun a => !p a)).length = l.length := by
    induction l with
    | nil => simp
    | cons a t ih =>
      rw [List.filter_cons, List.filter_cons]
      by_cases hp : p a
      · rw [if_pos hp, if_neg (by simp [hp])]
        simp only [List.length_cons]
        omega
      · rw [if_neg hp, if_pos (by simp [hp])]
        simp only [List.length_cons]
        omega
  omega

/-! ## C9: deleting the selected component instance -/

/-- C9: deleting the selected component instance removes every connection touching
any of the instance's ports and removes the instance from the circuit's instance
collection; afterwards no dangling connection remains — every former port of the
instance has empty `connections_in`/`connections_out`, the circuit's `connections`
list keeps exactly the connections not touching the instance (so it shrank by
exactly the number that did), and the whole operation equals removing the touching
connections first and then filtering the instance out of `component_instances`. -/
theorem c9_delete_selected_component (s : CircuitState) (i : Nat) (hr : Reachable s)
    (hsel : s.selected = some i) (hmem : i ∈ s.component_instances) :
    (∀ p, p ∈ s.inst_ports i →
      ((CircuitBuilder.delete_selected_component s).ports p).connections_in = [] ∧
      ((CircuitBuilder.delete_selected_component s).ports p).connections_out = []) ∧
    i ∉ (CircuitBuilder.delete_selected_component s).component_instances ∧
    (CircuitBuilder.delete_selected_component s).connections =
      s.connections.filter (fun c => !touches_instance s i c) ∧
    (CircuitBuilder.delete_selected_component s).connections.length =
      s.connections.length - (s.connections.filter (fun c => touches_instance s i c)).length ∧
    CircuitBuilder.delete_selected_component s =
      { (s.inst_ports i).foldl
          (fun t p => ((t.ports p).connections_in ++ (t.ports p).connections_out).foldl
            Connection.remove t) s with
        component_instances := s.component_instances.filter (fun j => j ≠ i)
        selected := none } := by
  have hinv := reachable_inv s hr
  have hdel : CircuitBuilder.delete_selected_component s =
      { (s.inst_ports i).foldl
          (fun t p => ((t.ports p).connections_in ++ (t.ports p).connections_out).foldl
            Connection.remove t) s with
        component_instances := s.component_instances.filter (fun j => j ≠ i)
        selected := none } := by
    simp only [CircuitBuilder.delete_selected_component, hsel]
    rw [if_pos hmem]
    rw [foldl_ports_set_instances]
  refine ⟨?_, ?_, ?_, ?_, hdel⟩
  · intro p hp
    rw [hdel]
    dsimp only
    constructor
    · rw [foldl_ports_in _ _ hinv p, List.filter_eq_nil_iff]
      intro a ha
      have hm := (mem_in_iff s hinv p a).mp ha
      have ht : touches_ports s (s.inst_ports i) a = true := by
        have : (s.conns a).target ∈ s.inst_ports i := hm.2 ▸ hp
        simp [touches_ports, this]
      simp [ht]
    · rw [foldl_ports_out _ _ hinv p, List.filter_eq_nil_iff]
      intro a ha
      have hm := (mem_out_iff s hinv p a).mp ha
      have ht : touches_ports s (s.inst_ports i) a = true := by
        have : (s.conns a).source ∈ s.inst_ports i := hm.2 ▸ hp
        simp [touches_ports, this]
      simp [ht]
  · rw [hdel]
    dsimp only
    simp [List.mem_filter]
  · rw [hdel]
    dsimp only
    rw [foldl_ports_connections _ _ hinv]
    rfl
  · rw [hdel]
    dsimp only
    rw [foldl_ports_connections _ _ hinv]
    exact length_filter_partition s.connections (fun c => touches_instance s i c)

theorem deleteBase_initial : deleteBase.initial := one2oneBase_initial

theorem reachable_deleteReady : Reachable deleteReady :=
  Reachable.step _ _ (Reachable.init _ deleteBase_initial) (Step.connect _ 1 2 true)

/-- Witness for `c9_delete_selected_component` at the concrete reachable state
`deleteReady` with its selected instance `100`. -/
theorem c9_delete_witness :
    (∀ p, p ∈ deleteReady.inst_ports 100 →
      ((CircuitBuilder.delete_selected_component deleteReady).ports p).connections_in = [] ∧
      ((CircuitBuilder.delete_selected_component deleteReady).ports p).connections_out = []) ∧
    100 ∉ (CircuitBuilder.delete_selected_component deleteReady).component_instances ∧
    (CircuitBuilder.delete_selected_component deleteReady).connections =
      deleteReady.connections.filter (fun c => !touches_instance deleteReady 100 c) ∧
    (CircuitBuilder.delete_selected_component deleteReady).connections.length =
      deleteReady.connections.length -
        (deleteReady.connections.filter (fun c => touches_instance deleteReady 100 c)).length ∧
    CircuitBuilder.delete_selected_component deleteReady =
      { (deleteReady.inst_ports 100).foldl
          (fun t p => ((t.ports p).connections_in ++ (t.ports p).connections_out).foldl
            Connection.remove t) deleteReady with
        component_instances := deleteReady.component_instances.filter (fun j => j ≠ 100)
        selected := none } :=
  c9_delete_selected_component deleteReady 100 reachable_deleteReady (by decide) (by decide)

/-! ## C1: `get_nets` and isolated ports -/

theorem foldlM_skip {α β : Type} (f : β → α → Option β) (l : List α) (b : β)
    (h : ∀ a ∈ l, ∀ st, f st a = some st) : l.foldlM f b = some b := by
  induction l generalizing b with
  | nil => rfl
  | cons a t ih =>
    rw [List.foldlM_cons, h a (List.mem_cons_self a t) b]
    exact ih b (fun x hx st => h x (List.mem_cons_of_mem a hx) st)

/-- C1 (counterexample): `c1State` has exactly one qualifying port for the
non-causal domain and no connections at all, yet `get_nets` returns the *empty*
list of nets rather than the claimed one singleton net `[[0]]` — `nets_by_nk`
only ever receives entries inside the loop over connections, so isolated ports
are never reported. -/
theorem c1_isolated_port_not_reported :
    Circuit.all_net_ports c1State elDomain = [0] ∧
    c1State.connections = [] ∧
    Circuit.get_nets c1State elDomain = some [] ∧
    Circuit.get_nets c1State elDomain ≠ some [[0]] := by
  decide

/-- C1 (amended): `get_nets(domain)` reports only cliques created by at least one
connection with both endpoints in the domain; a circuit none of whose connections
joins two ports of the domain — in particular a circuit with `N` isolated
qualifying ports and no connections — yields the empty list, not `N` singleton
nets. -/
theorem c1_get_nets_no_domain_connections (s : CircuitState) (d : DomainSpec)
    (h : ∀ cid ∈ s.connections,
      (s.ports (s.conns cid).source).domain ≠ d ∨
      (s.ports (s.conns cid).target).domain ≠ d) :
    Circuit.get_nets s d = some [] := by
  unfold Circuit.get_nets
  dsimp only
  rw [foldlM_skip _ _ _ (fun cid hc st => by rw [if_pos (h cid hc)])]
  rfl

/-- Witness for `c1_get_nets_no_domain_connections` at the concrete state
`c1State` (its `connections` list is empty). -/
theorem c1_get_nets_witness : Circuit.get_nets c1State elDomain = some [] :=
  c1_get_nets_no_domain_connections c1State elDomain
    (fun cid hc => absurd hc (List.not_mem_nil cid))

/-! ## Association-list and `omapM` lemmas -/

theorem omapM_cons {α β : Type} (f : α → Option β) (a : α) (t : List α) :
    omapM f (a :: t) = (f a).bind fun b => (omapM f t).map fun bs => b :: bs := rfl

theorem omapM_map_some {α β γ : Type} (l : List α) (f : α → β) (g : β → Option γ)
    (k : α → γ) (h : ∀ x ∈ l, g (f x) = some (k x)) :
    omapM g (l.map f) = some (l.map k) := by
  induction l with
  | nil => rfl
  | cons a t ih =>
    rw [List.map_cons, omapM_cons, h a (List.mem_cons_self a t),
      ih (fun x hx => h x (List.mem_cons_of_mem a hx))]
    rfl

theorem omapM_forall2 {α β : Type} (l : List α) (g : α → Option β) (l' : List β)
    (h : omapM g l = some l') : List.Forall₂ (fun x y => g x = some y) l l' := by
  induction l generalizing l' with
  | nil =>
    cases h
    exact List.Forall₂.nil
  | cons a t ih =>
    rw [omapM_cons] at h
    rcases Option.bind_eq_some.mp h with ⟨b, hb, h2⟩
    rcases Option.map_eq_some'.mp h2 with ⟨bs, hbs, h3⟩
    subst h3
    exact List.Forall₂.cons hb (ih bs hbs)

theorem forall2_mem_right {α β : Type} {P : α → β → Prop} {l : List α} {l' : List β}
    (h : List.Forall₂ P l l') : ∀ y ∈ l', ∃ x ∈ l, P x y := by
  induction h with
  | nil => intro y hy; cases hy
  | cons hab _ ih =>
    intro y hy
    rcases List.mem_cons.mp hy with rfl | hy
    · exact ⟨_, List.mem_cons_self _ _, hab⟩
    · rcases ih y hy with ⟨x, hx, hp⟩
      exact ⟨x, List.mem_cons_of_mem _ hx, hp⟩

theorem forall2_map_eq {α β γ : Type} {P : α → β → Prop} {l : List α} {l' : List β}
    (h : List.Forall₂ P l l') (g : β → γ) (k : α → γ)
    (hgk : ∀ x y, P x y → g y = k x) : l'.map g = l.map k := by
  induction h with
  | nil => rfl
  | cons hab _ ih => simp only [List.map_cons, hgk _ _ hab, ih]

theorem alist_upd_subset {κ α : Type} [DecidableEq κ] (m : List (κ × α)) (k : κ) (v : α) :
    ∀ e ∈ alist_upd m k v, e ∈ m ∨ e = (k, v) := by
  intro e he
  unfold alist_upd at he
  split_ifs at he
  · rcases List.mem_map.mp he with ⟨kv, hkv, hekv⟩
    by_cases hk : kv.1 = k
    · right
      rw [← hekv, if_pos hk]
    · left
      rw [← hekv, if_neg hk]
      exact hkv
  · rcases List.mem_append.mp he with h1 | h1
    · exact Or.inl h1
    · exact Or.inr (List.mem_singleton.mp h1)

theorem dictOf_subset {κ α : Type} [DecidableEq κ] (l : List (κ × α)) :
    ∀ e ∈ dictOf l, e ∈ l := by
  suffices haux : ∀ (acc : List (κ × α)), ∀ e ∈
      l.foldl (fun m kv => alist_upd m kv.1 kv.2) acc, e ∈ acc ∨ e ∈ l by
    intro e he
    rcases haux [] e he with h | h
    · cases h
    · exact h
  induction l with
  | nil => intro acc e he; exact Or.inl he
  | cons a t ih =>
    intro acc e he
    rw [List.foldl_cons] at he
    rcases ih (alist_upd acc a.1 a.2) e he with h | h
    · rcases alist_upd_subset acc a.1 a.2 e h with h2 | h2
      · exact Or.inl h2
      · exact Or.inr (h2 ▸ List.mem_cons_self a t)
    · exact Or.inr (List.mem_cons_of_mem a h)

theorem alist_upd_keys {κ α : Type} [DecidableEq κ] (m : List (κ × α)) (k : κ) (v : α) :
    (alist_upd m k v).map Prod.fst =
      if k ∈ m.map Prod.fst then m.map Prod.fst else m.map Prod.fst ++ [k] := by
  unfold alist_upd
  split_ifs with hmem
  · rw [List.map_map]
    refine List.map_congr_left (fun kv _ => ?_)
    by_cases hk : kv.1 = k <;> simp [hk]
  · simp

theorem dictOf_keys {κ α : Type} [DecidableEq κ] (l : List (κ × α)) (k : κ) :
    k ∈ (dictOf l).map Prod.fst ↔ k ∈ l.map Prod.fst := by
  suffices haux : ∀ (acc : List (κ × α)),
      (k ∈ (l.foldl (fun m kv => alist_upd m kv.1 kv.2) acc).map Prod.fst ↔
        k ∈ acc.map Prod.fst ∨ k ∈ l.map Prod.fst) by
    rw [dictOf, haux []]
    simp
  induction l with
  | nil => intro acc; simp
  | cons a t ih =>
    intro acc
    rw [List.foldl_cons, ih (alist_upd acc a.1 a.2), alist_upd_keys]
    by_cases hmem : a.1 ∈ acc.map Prod.fst
    · rw [if_pos hmem]
      constructor
      · rintro (h | h)
        · exact Or.inl h
        · exact Or.inr (List.mem_cons_of_mem _ h)
      · rintro (h | h)
        · exact Or.inl h
        · rcases List.mem_cons.mp h with rfl | h2
          · exact Or.inl hmem
          · exact Or.inr h2
    · rw [if_neg hmem]
      constructor
      · rintro (h | h)
        · rcases List.mem_append.mp h with h2 | h2
          · exact Or.inl h2
          · exact Or.inr (List.mem_cons.mpr (Or.inl (List.mem_singleton.mp h2)))
        · exact Or.inr (List.mem_cons_of_mem _ h)
      · rintro (h | h)
        · exact Or.inl (List.mem_append.mpr (Or.inl h))
        · rcases List.mem_cons.mp h with rfl | h2
          · exact Or.inl (List.mem_append.mpr (Or.inr (List.mem_singleton.mpr rfl)))
          · exact Or.inr h2

theorem alist_find_isSome {κ α : Type} [DecidableEq κ] (m : List (κ × α)) (k : κ) :
    (alist_find m k).isSome ↔ k ∈ m.map Prod.fst := by
  unfold alist_find
  induction m with
  | nil => simp
  | cons kv t ih =>
    by_cases hk : kv.1 = k
    · rw [List.find?_cons_of_pos _ (by simp [hk])]
      simp [hk]
    · rw [List.find?_cons_of_neg _ (by simp [hk])]
      simp only [List.map_cons, List.mem_cons]
      rw [ih]
      constructor
      · exact Or.inr
      · rintro (h | h)
        · exact absurd h.symm hk
        · exact h

theorem alist_find_mem {κ α : Type} [DecidableEq κ] (m : List (κ × α)) (k : κ) (v : α)
    (h : alist_find m k = some v) : (k, v) ∈ m := by
  unfold alist_find at h
  rcases Option.map_eq_some'.mp h with ⟨kv, hfind, hv⟩
  have hkey : kv.1 = k := by simpa using List.find?_some hfind
  have hmem := List.mem_of_find?_eq_some hfind
  have : (k, v) = kv := by
    rw [← hkey, ← hv]
  rw [this]
  exact hmem

theorem dictOf_nodup {κ α : Type} [DecidableEq κ] (l : List (κ × α))
    (h : (l.map Prod.fst).Nodup) : dictOf l = l := by
  have haux : ∀ (m : List (κ × α)) (acc : List (κ × α)),
      (acc.map Prod.fst ++ m.map Prod.fst).Nodup →
      m.foldl (fun m kv => alist_upd m kv.1 kv.2) acc = acc ++ m := by
    intro m
    induction m with
    | nil => intro acc _; simp
    | cons a t ih =>
      intro acc hacc
      rw [List.foldl_cons]
      have hnotin : a.1 ∉ acc.map Prod.fst := by
        rcases List.nodup_append.mp hacc with ⟨_, _, hdisj⟩
        intro hmem
        exact hdisj hmem (by simp)
      have hupd : alist_upd acc a.1 a.2 = acc ++ [a] := by
        unfold alist_upd
        rw [if_neg hnotin]
      have hacc2 : ((acc ++ [a]).map Prod.fst ++ t.map Prod.fst).Nodup := by
        rw [List.map_append, List.append_assoc]
        simpa using hacc
      rw [hupd, ih (acc ++ [a]) hacc2]
      simp
  exact (haux l [] (by simpa using h)).trans (List.nil_append l)

theorem alist_find_map_self {κ α : Type} [DecidableEq κ] (l : List α) (key : α → κ)
    (k : κ) (y : α) (h : alist_find (l.map (fun x => (key x, x))) k = some y) :
    y ∈ l ∧ key y = k := by
  have hmem := alist_find_mem _ _ _ h
  rcases List.mem_map.mp hmem with ⟨x, hx, hxy⟩
  obtain ⟨h1, h2⟩ := Prod.mk.inj hxy
  subst h2
  exact ⟨hx, h1⟩

theorem alist_find_map_self_isSome {κ α : Type} [DecidableEq κ] (l : List α) (key : α → κ)
    (x : α) (hx : x ∈ l) : (alist_find (l.map (fun z => (key z, z))) (key x)).isSome := by
  rw [alist_find_isSome, List.map_map]
  exact List.mem_map_of_mem _ hx

/-! ## C2: the serialization round trip -/

theorem domains_lookup (c : SCircuit)
    (W4 : ∀ d1 ∈ c.collected_domains, ∀ d2 ∈ c.collected_domains, d1.name = d2.name → d1 = d2)
    (dm : DomainSpec) (hdm : dm ∈ c.collected_domains) :
    alist_find (SCircuit.to_jsonifiable c).domains dm.name = some (dm.causal, dm.one2one) := by
  have hkey : dm.name ∈ (c.collected_domains.map
      (fun d => (d.name, d.causal, d.one2one))).map Prod.fst := by
    rw [List.map_map]
    exact List.mem_map_of_mem _ hdm
  have hsome : (alist_find (SCircuit.to_jsonifiable c).domains dm.name).isSome := by
    rw [alist_find_isSome]
    exact (dictOf_keys _ _).mpr hkey
  obtain ⟨v, hv⟩ := Option.isSome_iff_exists.mp hsome
  have hin : (dm.name, v) ∈ c.collected_domains.map (fun d => (d.name, d.causal, d.one2one)) :=
    dictOf_subset _ (dm.name, v) (alist_find_mem _ _ _ hv)
  rcases List.mem_map.mp hin with ⟨d2, hd2, he⟩
  obtain ⟨hn, hval⟩ := Prod.mk.inj he
  have hd2dm : d2 = dm := W4 d2 hd2 dm hdm hn
  rw [hv, ← hval, hd2dm]

theorem make_port_restore (c : SCircuit)
    (W4 : ∀ d1 ∈ c.collected_domains, ∀ d2 ∈ c.collected_domains, d1.name = d2.name → d1 = d2)
    (p : SPort) (hp : p.domain ∈ c.collected_domains) (hd : dir_ok p) :
    make_port (SCircuit.to_jsonifiable c).domains (port_info p) = some p := by
  unfold make_port port_info
  rw [domains_lookup c W4 p.domain hp]
  simp only [Option.map_some']
  congr 1
  show normalize_direction p = p
  unfold normalize_direction
  by_cases hc : p.domain.causal = true
  · unfold dir_ok at hd
    rw [if_pos hc] at hd
    rw [if_pos hc]
    rcases hd with hdir | hdir <;> simp [hdir]
  · unfold dir_ok at hd
    rw [if_neg hc] at hd
    rw [if_neg hc, ← hd]

theorem resolve_port_inv (cname : String) (ports : List SPort) (insts : List SInstance)
    (cn pn : String) (sp : String × SPort)
    (h : resolve_port cname ports insts cn pn = some sp) : sp.1 = cn ∧ sp.2.name = pn := by
  unfold resolve_port at h
  split_ifs at h with hcn
  · rcases Option.map_eq_some'.mp h with ⟨q, hq, he⟩
    obtain ⟨_, hqname⟩ := alist_find_map_self ports SPort.name pn q hq
    rw [← he]
    exact ⟨hcn.symm, hqname⟩
  · rcases Option.bind_eq_some.mp h with ⟨i, hi, h2⟩
    rcases Option.map_eq_some'.mp h2 with ⟨q, hq, he⟩
    obtain ⟨_, hiname⟩ := alist_find_map_self insts SInstance.name cn i hi
    obtain ⟨_, hqname⟩ := alist_find_map_self i.ports SPort.name pn q hq
    rw [← he]
    exact ⟨hiname, hqname⟩

/-- C2: serializing and re-loading a circuit is a structural round trip.  For a
circuit `c` satisfying the invariants that the public construction API
maintains — direction-consistent ports (W1, W2), instance ports cloned from
their type (W3), one domain object per name (W4), one component type per name
(W5), and unique instance names (W6) — if
`from_jsonifiable (to_jsonifiable c) = some c'` then
`to_jsonifiable c' = to_jsonifiable c`: the same domains, external ports,
component types, instances and connection 4-tuples, compared by name. -/
theorem c2_round_trip (c c' : SCircuit)
    (W1 : ∀ p ∈ c.ports, dir_ok p)
    (W2 : ∀ i ∈ c.component_instances, ∀ p ∈ i.ctype.ports, dir_ok p)
    (W3 : ∀ i ∈ c.component_instances, i.ports = i.ctype.ports)
    (W4 : ∀ d1 ∈ c.collected_domains, ∀ d2 ∈ c.collected_domains,
      d1.name = d2.name → d1 = d2)
    (W5 : ∀ i ∈ c.component_instances, ∀ j ∈ c.component_instances,
      i.ctype.name = j.ctype.name → i.ctype = j.ctype)
    (W6 : (c.component_instances.map SInstance.name).Nodup)
    (h : SCircuit.from_jsonifiable (SCircuit.to_jsonifiable c) = some c') :
    SCircuit.to_jsonifiable c' = SCircuit.to_jsonifiable c := by
  have hpc : ∀ p ∈ c.ports, p.domain ∈ c.collected_domains := fun p hp =>
    List.mem_append_left _ (List.mem_map_of_mem _ hp)
  have hic : ∀ i ∈ c.component_instances, ∀ p ∈ i.ctype.ports,
      p.domain ∈ c.collected_domains := by
    intro i hi p hp
    refine List.mem_append_right _ (List.mem_flatten.mpr
      ⟨i.ports.map SPort.domain, List.mem_map_of_mem _ hi, ?_⟩)
    rw [W3 i hi]
    exact List.mem_map_of_mem _ hp
  unfold SCircuit.from_jsonifiable at h
  by_cases hname : (SCircuit.to_jsonifiable c).name = ""
  · rw [if_pos hname] at h
    cases h
  rw [if_neg hname] at h
  -- ports are rebuilt exactly
  have hports : omapM (make_port (SCircuit.to_jsonifiable c).domains)
      (SCircuit.to_jsonifiable c).ports = some c.ports := by
    show omapM (make_port (SCircuit.to_jsonifiable c).domains) (c.ports.map port_info) =
      some c.ports
    have := omapM_map_some c.ports port_info
      (make_port (SCircuit.to_jsonifiable c).domains) id
      (fun p hp => make_port_restore c W4 p (hpc p hp) (W1 p hp))
    simpa using this
  rcases Option.bind_eq_some.mp h with ⟨ports0, hp0, h⟩
  rw [hports] at hp0
  have hports0 : c.ports = ports0 := Option.some_inj.mp hp0
  subst hports0
  -- component types: characterize the rebuilt list
  rcases Option.bind_eq_some.mp h with ⟨ctypes0, hct0, h⟩
  have hf2ct := omapM_forall2 _ _ _ hct0
  have hctname : ∀ (kv : String × List PortSpec) (ct : SCType),
      ((omapM (make_port (SCircuit.to_jsonifiable c).domains) kv.2).bind fun tps =>
        if (tps.map SPort.name).Nodup then some (⟨kv.1, tps⟩ : SCType) else none) = some ct →
      ct.name = kv.1 := by
    intro kv ct hkv
    rcases Option.bind_eq_some.mp hkv with ⟨tps, _, h2⟩
    split_ifs at h2
    rw [← Option.some_inj.mp h2]
  have hctelem : ∀ ct ∈ ctypes0, ∃ i ∈ c.component_instances, ct = i.ctype := by
    intro ct hct
    rcases forall2_mem_right hf2ct ct hct with ⟨kv, hkv, hfct⟩
    have hkv2 : kv ∈ c.component_instances.map
        (fun i => (i.ctype.name, i.ctype.ports.map port_info)) :=
      dictOf_subset _ kv hkv
    rcases List.mem_map.mp hkv2 with ⟨i, hi, hkvi⟩
    refine ⟨i, hi, ?_⟩
    have hinner : omapM (make_port (SCircuit.to_jsonifiable c).domains)
        (i.ctype.ports.map port_info) = some i.ctype.ports := by
      have := omapM_map_some i.ctype.ports port_info
        (make_port (SCircuit.to_jsonifiable c).domains) id
        (fun p hp => make_port_restore c W4 p (hic i hi p hp) (W2 i hi p hp))
      simpa using this
    subst hkvi
    dsimp only at hfct
    rw [hinner] at hfct
    have hfct2 : (if (i.ctype.ports.map SPort.name).Nodup then
        some (⟨i.ctype.name, i.ctype.ports⟩ : SCType) else none) = some ct := hfct
    split_ifs at hfct2
    exact (Option.some_inj.mp hfct2).symm
  have hctkeys : ctypes0.map SCType.name =
      ((SCircuit.to_jsonifiable c).component_types).map Prod.fst :=
    forall2_map_eq hf2ct SCType.name Prod.fst (fun kv ct hp => hctname kv ct hp)
  have hfindct : ∀ i ∈ c.component_instances,
      alist_find (ctypes0.map (fun ct => (ct.name, ct))) i.ctype.name = some i.ctype := by
    intro i hi
    have hkey : i.ctype.name ∈ (ctypes0.map (fun ct => (ct.name, ct))).map Prod.fst := by
      rw [List.map_map]
      have hkey1 : ctypes0.map (Prod.fst ∘ fun ct => (ct.name, ct)) =
          ctypes0.map SCType.name := rfl
      rw [hkey1, hctkeys]
      refine (dictOf_keys _ _).mpr ?_
      rw [List.map_map]
      exact List.mem_map_of_mem _ hi
    obtain ⟨y, hy⟩ := Option.isSome_iff_exists.mp ((alist_find_isSome _ _).mpr hkey)
    obtain ⟨hymem, hyname⟩ := alist_find_map_self ctypes0 SCType.name i.ctype.name y hy
    rcases hctelem y hymem with ⟨j, hj, hyj⟩
    have hjname : j.ctype.name = i.ctype.name := by rw [← hyj, hyname]
    have : j.ctype = i.ctype := W5 j hj i hi hjname
    rw [hy, hyj, this]
  -- instances are rebuilt exactly
  rcases Option.bind_eq_some.mp h with ⟨insts0, hins0, h⟩
  have hinsts : omapM (fun (kv : String × String) =>
      (alist_find (ctypes0.map (fun ct => (ct.name, ct))) kv.2).map fun ct =>
        (⟨kv.1, ct, clone_ports ct.ports⟩ : SInstance))
      (SCircuit.to_jsonifiable c).component_instances = some c.component_instances := by
    have hdict : (SCircuit.to_jsonifiable c).component_instances =
        c.component_instances.map (fun i => (i.name, i.ctype.name)) := by
      show dictOf _ = _
      apply dictOf_nodup
      rw [List.map_map]
      exact W6
    rw [hdict]
    have := omapM_map_some c.component_instances (fun i => (i.name, i.ctype.name))
      (fun (kv : String × String) =>
        (alist_find (ctypes0.map (fun ct => (ct.name, ct))) kv.2).map fun ct =>
          (⟨kv.1, ct, clone_ports ct.ports⟩ : SInstance)) id
      (fun i hi => by
        dsimp only
        rw [hfindct i hi, Option.map_some']
        show some (⟨i.name, i.ctype, i.ctype.ports⟩ : SInstance) = some i
        rw [← W3 i hi])
    simpa using this
  rw [hinsts] at hins0
  have hins0eq : c.component_instances = insts0 := Option.some_inj.mp hins0
  subst hins0eq
  -- uniqueness guard
  by_cases hguard : (c.ports.map SPort.name).Nodup ∧
      (c.component_instances.map SInstance.name).Nodup
  case neg =>
    rw [if_neg hguard] at h
    cases h
  rw [if_pos hguard] at h
  rcases Option.map_eq_some'.mp h with ⟨conns0, hconns0, hc'⟩
  have hf2conn := omapM_forall2 _ _ _ hconns0
  have htuple : ∀ (t : String × String × String × String) (co : SConn),
      ((resolve_port (SCircuit.to_jsonifiable c).name c.ports c.component_instances
          t.1 t.2.1).bind fun sp =>
        (resolve_port (SCircuit.to_jsonifiable c).name c.ports c.component_instances
          t.2.2.1 t.2.2.2).map fun tp =>
        (⟨sp.1, sp.2, tp.1, tp.2⟩ : SConn)) = some co →
      (co.source_owner, co.source.name, co.target_owner, co.target.name) = t := by
    intro t co hco
    rcases Option.bind_eq_some.mp hco with ⟨sp, hsp, h2⟩
    rcases Option.map_eq_some'.mp h2 with ⟨tp, htp, h3⟩
    obtain ⟨ho1, hn1⟩ := resolve_port_inv _ _ _ _ _ _ hsp
    obtain ⟨ho2, hn2⟩ := resolve_port_inv _ _ _ _ _ _ htp
    subst h3
    show (sp.1, sp.2.name, tp.1, tp.2.name) = t
    rw [ho1, hn1, ho2, hn2]
  have hfinal : conns0.map
      (fun co => (co.source_owner, co.source.name, co.target_owner, co.target.name)) =
      c.connections.map
        (fun co => (co.source_owner, co.source.name, co.target_owner, co.target.name)) := by
    have := forall2_map_eq hf2conn
      (fun co => (co.source_owner, co.source.name, co.target_owner, co.target.name)) id
      (fun t co hp => htuple t co hp)
    simpa using this
  subst hc'
  unfold SCircuit.to_jsonifiable SCircuit.collected_domains
  dsimp only
  rw [hfinal]

/-- Witness for `c2_round_trip` at the concrete circuit `mzCircuit` (all six
well-formedness hypotheses and the successful reload are checked by
computation). -/
theorem c2_round_trip_witness :
    SCircuit.to_jsonifiable ((SCircuit.from_jsonifiable
        (SCircuit.to_jsonifiable mzCircuit)).getD mzCircuit) =
      SCircuit.to_jsonifiable mzCircuit := by
  have h : SCircuit.from_jsonifiable (SCircuit.to_jsonifiable mzCircuit) =
      some ((SCircuit.from_jsonifiable (SCircuit.to_jsonifiable mzCircuit)).getD mzCircuit) := by
    decide
  exact c2_round_trip mzCircuit _ (by decide) (by decide) (by decide) (by decide)
    (by decide) (by decide) h

end Cirq
